import Mathlib

set_option maxRecDepth 100000
set_option linter.dupNamespace false

/-!
# Verification of the hyperlink-harvester extraction scripts

Shallow embedding of `script/extract_links.py` and `script/scrape_links.py`.

Conventions:
* Python strings become `Str := List Char`; `str.lower()` is modelled by ASCII
  case mapping (all phrases and schemes compared by the scripts are ASCII).
* The scripts call `urllib.parse.urljoin / urlparse / urlunparse`.  These
  library collaborators are modelled after the CPython 3.11 sources
  (`urlsplit`, `_splitparams`, `urlunsplit`, `urljoin`), including the input
  sanitisation (`_WHATWG_C0_CONTROL_OR_SPACE` left-strip and tab/CR/LF
  removal) and the 3.11 `urlunsplit` netloc rule.  The paths of `urlsplit`
  that raise `ValueError` (unbalanced IPv6 brackets, non-ASCII NFKC netloc
  check) are omitted: they raise instead of returning a value.
* BeautifulSoup documents become a `Node` tree; `find_all` and the specific
  CSS selectors used by the scripts are modelled by preorder traversals.
* Network fetching and file writing are external collaborators: the
  orchestrators are modelled as pure functions from the fetch outcome to an
  exit code plus the list of file operations performed.
-/

abbrev Str := List Char

/-- String literal to `Str`. -/
def str (s : String) : Str := s.data

/-- Python `s.lower()` (ASCII case mapping). -/
def pyLower (s : Str) : Str := s.map Char.toLower

/-- Python substring test `pat in s`. -/
def containsSub : Str → Str → Bool
  | [], pat => pat.isPrefixOf ([] : Str)
  | c :: t, pat => pat.isPrefixOf (c :: t) || containsSub t pat

/-- Python `s.rstrip('/')`: remove every trailing `'/'`. -/
def rstripSlash (s : Str) : Str := (s.reverse.dropWhile (· = '/')).reverse

/-- Python `s.startswith((p₁, …, pₙ))`. -/
def startswithAny (s : Str) (ps : List Str) : Bool := ps.any (fun p => p.isPrefixOf s)

namespace urllib

/-- Characters of `_WHATWG_C0_CONTROL_OR_SPACE`. -/
def isC0OrSpace (c : Char) : Bool := c.val ≤ 32

/-- Characters of `_UNSAFE_URL_BYTES_TO_REMOVE` (tab, CR, LF). -/
def isUnsafe (c : Char) : Bool := c = '\t' || c = '\r' || c = '\n'

/-- Sanitisation `urlsplit` applies to its `url` argument: left-strip C0
controls and space, then delete every tab/CR/LF. -/
def sanitize (u : Str) : Str := (u.dropWhile isC0OrSpace).filter (fun c => !isUnsafe c)

/-- Sanitisation `urlsplit` applies to its `scheme` argument (strip both ends,
then delete tab/CR/LF). -/
def sanitizeScheme (s : Str) : Str :=
  (((s.dropWhile isC0OrSpace).reverse.dropWhile isC0OrSpace).reverse).filter (fun c => !isUnsafe c)

/-- Membership in Python's `scheme_chars`. -/
def schemeChar (c : Char) : Bool := c.isAlpha || c.isDigit || c = '+' || c = '-' || c = '.'

/-- Split at the first occurrence of `ch` (Python `s.split(ch, 1)` when present). -/
def breakOn (ch : Char) : Str → Option (Str × Str)
  | [] => none
  | c :: cs => if c = ch then some ([], cs) else (breakOn ch cs).map (fun p => (c :: p.1, p.2))

/-- A netloc character: anything but the `'/?#'` delimiters of `_splitnetloc`. -/
def notDelim (c : Char) : Bool := !(c = '/' || c = '?' || c = '#')

structure SplitResult where
  scheme : Str
  netloc : Str
  path : Str
  query : Str
  fragment : Str
deriving DecidableEq, Repr

structure ParseResult where
  scheme : Str
  netloc : Str
  path : Str
  params : Str
  query : Str
  fragment : Str
deriving DecidableEq, Repr

/-- Scheme recognition of `urlsplit`: `i = url.find(':')`, accepted when the
prefix is a nonempty ASCII-letter-led run of `scheme_chars`. -/
def splitScheme (dflt url : Str) : Str × Str :=
  match breakOn ':' url with
  | some (pre, rest) =>
      if pre ≠ [] ∧ (pre.headD ' ').isAlpha ∧ pre.all schemeChar
      then (pyLower pre, rest) else (dflt, url)
  | none => (dflt, url)

/-- `if url[:2] == '//': netloc, url = _splitnetloc(url, 2)`. -/
def splitNetloc (u1 : Str) : Str × Str :=
  if u1.take 2 = ['/', '/']
  then ((u1.drop 2).takeWhile notDelim, (u1.drop 2).dropWhile notDelim)
  else (([] : Str), u1)

/-- `if '#' in url: url, fragment = url.split('#', 1)`. -/
def splitFragment (u2 : Str) : Str × Str :=
  match breakOn '#' u2 with | some q => q | none => (u2, [])

/-- `if '?' in url: url, query = url.split('?', 1)`. -/
def splitQuery (u3 : Str) : Str × Str :=
  match breakOn '?' u3 with | some q => q | none => (u3, [])

/-- CPython 3.11 `urlsplit(url, scheme=dflt)` with `allow_fragments=True`. -/
def urlsplit (url0 dflt0 : Str) : SplitResult :=
  let url := sanitize url0
  let dflt := sanitizeScheme dflt0
  let p1 := splitScheme dflt url
  let p2 := splitNetloc p1.2
  let p3 := splitFragment p2.2
  let p4 := splitQuery p3.1
  ⟨p1.1, p2.1, p4.1, p4.2, p3.2⟩

/-- Split at the last `'/'`: `some (a, b)` with `u = a ++ '/' :: b` and `'/' ∉ b`. -/
def splitLastSlash : Str → Option (Str × Str)
  | [] => none
  | c :: cs =>
    match splitLastSlash cs with
    | some (a, b) => some (c :: a, b)
    | none => if c = '/' then some ([], cs) else none

/-- CPython `_splitparams`.  In the slash-free branch a missing `';'` makes
Python slice with `i = -1` (`url[:-1], url[0:]`); callers only reach that
branch when `';'` is present, but the slicing is mirrored. -/
def splitparams (url : Str) : Str × Str :=
  match splitLastSlash url with
  | some (a, b) =>
      -- i = url.find(';', url.rfind('/'))
      match breakOn ';' b with
      | none => (url, [])
      | some (x, y) => (a ++ '/' :: x, y)
  | none =>
      match breakOn ';' url with
      | none => (url.dropLast, url)
      | some (x, y) => (x, y)

def uses_params : List Str :=
  ["", "ftp", "hdl", "prospero", "http", "imap", "https", "shttp", "rtsp",
   "rtsps", "rtspu", "sip", "sips", "mms", "sftp", "tel"].map str

def uses_relative : List Str :=
  ["", "ftp", "http", "gopher", "nntp", "imap", "wais", "file", "https",
   "shttp", "mms", "prospero", "rtsp", "rtsps", "rtspu", "sftp", "svn",
   "svn+ssh", "ws", "wss"].map str

def uses_netloc : List Str :=
  ["", "ftp", "http", "gopher", "nntp", "telnet", "imap", "wais", "file",
   "mms", "https", "shttp", "snews", "prospero", "rtsp", "rtsps", "rtspu",
   "rsync", "svn", "svn+ssh", "sftp", "nfs", "git", "git+ssh", "ws",
   "wss"].map str

/-- CPython `urlparse(url, scheme=dflt)`. -/
def urlparse (url dflt : Str) : ParseResult :=
  let s := urlsplit url dflt
  if s.scheme ∈ uses_params ∧ ';' ∈ s.path then
    let p := splitparams s.path
    ⟨s.scheme, s.netloc, p.1, p.2, s.query, s.fragment⟩
  else ⟨s.scheme, s.netloc, s.path, [], s.query, s.fragment⟩

/-- CPython 3.11 `urlunsplit`. -/
def urlunsplit (scheme netloc url0 query fragment : Str) : Str :=
  let url :=
    if netloc ≠ [] ∨ (scheme ≠ [] ∧ scheme ∈ uses_netloc ∧ url0.take 2 ≠ ['/', '/']) then
      let u := if url0 ≠ [] ∧ url0.headD '/' ≠ '/' then '/' :: url0 else url0
      '/' :: '/' :: (netloc ++ u)
    else url0
  let url := if scheme ≠ [] then scheme ++ ':' :: url else url
  let url := if query ≠ [] then url ++ '?' :: query else url
  if fragment ≠ [] then url ++ '#' :: fragment else url

/-- CPython `urlunparse`. -/
def urlunparse (p : ParseResult) : Str :=
  let u := if p.params ≠ [] then p.path ++ ';' :: p.params else p.path
  urlunsplit p.scheme p.netloc u p.query p.fragment

/-- Python `s.split('/')`. -/
def splitSlash : Str → List Str
  | [] => [[]]
  | c :: cs =>
    if c = '/' then [] :: splitSlash cs
    else match splitSlash cs with
      | h :: t => (c :: h) :: t
      | [] => [[c]]

/-- Python slice assignment `segments[1:-1] = filter(None, segments[1:-1])`. -/
def filterMiddle : List Str → List Str
  | [] => []
  | [a] => [a]
  | a :: b :: rest =>
      a :: (((b :: rest).dropLast.filter (fun s => s ≠ [])) ++ [(b :: rest).getLastD []])

/-- The segment-resolution loop of `urljoin`. -/
def resolveSegs (segs : List Str) : List Str :=
  segs.foldl (fun acc seg =>
    if seg = ['.', '.'] then acc.dropLast
    else if seg = ['.'] then acc
    else acc ++ [seg]) []

/-- CPython 3.11 `urljoin(base, url)` with `allow_fragments=True`. -/
def urljoin (base url : Str) : Str :=
  if base = [] then url
  else if url = [] then base
  else
    let b := urlparse base []
    let u := urlparse url b.scheme
    if u.scheme ≠ b.scheme ∨ u.scheme ∉ uses_relative then url
    else if u.scheme ∈ uses_netloc ∧ u.netloc ≠ [] then
      urlunparse ⟨u.scheme, u.netloc, u.path, u.params, u.query, u.fragment⟩
    else
      let netloc := if u.scheme ∈ uses_netloc then b.netloc else u.netloc
      if u.path = [] ∧ u.params = [] then
        urlunparse ⟨u.scheme, netloc, b.path, b.params,
          (if u.query = [] then b.query else u.query), u.fragment⟩
      else
        let base_parts0 := splitSlash b.path
        let base_parts :=
          if base_parts0.getLastD [] ≠ [] then base_parts0.dropLast else base_parts0
        let segments :=
          if u.path.headD ' ' = '/' then splitSlash u.path
          else filterMiddle (base_parts ++ splitSlash u.path)
        let resolved0 := resolveSegs segments
        let resolved :=
          if segments.getLastD [] = ['.'] ∨ segments.getLastD [] = ['.', '.']
          then resolved0 ++ [[]] else resolved0
        let rp := List.intercalate ['/'] resolved
        urlunparse ⟨u.scheme, netloc, (if rp = [] then ['/'] else rp), u.params, u.query, u.fragment⟩

end urllib

namespace extract_links
open urllib

/-- `extract_links.normalize_url(href, base_url, target_origin)`. -/
def normalize_url (href base_url target_origin : Str) : Option Str :=
  if href = [] ∨ startswithAny href [str "mailto:", str "tel:", str "javascript:"] then none
  else if href.headD ' ' = '#' then none
  else
    let absolute_url := urljoin base_url href
    let parsed := urlparse absolute_url []
    let target_parsed := urlparse target_origin []
    if parsed.netloc ≠ target_parsed.netloc then none
    else
      -- scheme is forced to https, the fragment stripped, the query kept,
      -- and trailing slashes removed unless the path is exactly "/"
      let path := if parsed.path = str "/" then str "/" else rstripSlash parsed.path
      some (urlunparse ⟨str "https", parsed.netloc, path, [], parsed.query, []⟩)

end extract_links

namespace scrape_links
open urllib

/-- `scrape_links.normalize_url(href, base_url, strip_fragments=True)`. -/
def normalize_url (href base_url : Str) (strip_fragments : Bool := true) : Option Str :=
  if href = [] ∨ startswithAny href [str "mailto:", str "tel:", str "javascript:", str "data:"] then none
  else if href.headD ' ' = '#' then none
  else
    let absolute_url := urljoin base_url href
    let parsed := urlparse absolute_url []
    if parsed.scheme ∉ [str "http", str "https"] then none
    else
      let fragment := if strip_fragments then [] else parsed.fragment
      let path := if parsed.path = str "/" then str "/" else rstripSlash parsed.path
      some (urlunparse ⟨parsed.scheme, parsed.netloc, path, [], parsed.query, fragment⟩)

/-- `scrape_links.is_internal_url(url, base_url)`. -/
def is_internal_url (url base_url : Str) : Bool :=
  (urlparse url []).netloc == (urlparse base_url []).netloc

end scrape_links

/-! ## DOM model (BeautifulSoup documents)

A parsed document is a `Node` tree.  Attributes other than `class` are
single-valued strings; `class` is bs4's multi-valued list.  bs4 `Tag.__eq__`
is deep structural equality, which coincides with equality of `Node` values. -/

inductive Node where
  | text (s : Str)
  | elem (tag : Str) (attrs : List (Str × Str)) (classes : List Str) (children : List Node)

mutual
def nodeDecEq : (a b : Node) → Decidable (a = b)
  | .text s, .text t =>
      match decEq s t with
      | .isTrue h => .isTrue (by rw [h])
      | .isFalse h => .isFalse (fun hh => h (by cases hh; rfl))
  | .text _, .elem _ _ _ _ => .isFalse (fun hh => by cases hh)
  | .elem _ _ _ _, .text _ => .isFalse (fun hh => by cases hh)
  | .elem t1 a1 c1 ch1, .elem t2 a2 c2 ch2 =>
      match decEq t1 t2, decEq a1 a2, decEq c1 c2, nodeDecEqList ch1 ch2 with
      | .isTrue h1, .isTrue h2, .isTrue h3, .isTrue h4 => .isTrue (by rw [h1, h2, h3, h4])
      | .isFalse h1, _, _, _ => .isFalse (fun hh => h1 (by cases hh; rfl))
      | _, .isFalse h2, _, _ => .isFalse (fun hh => h2 (by cases hh; rfl))
      | _, _, .isFalse h3, _ => .isFalse (fun hh => h3 (by cases hh; rfl))
      | _, _, _, .isFalse h4 => .isFalse (fun hh => h4 (by cases hh; rfl))

def nodeDecEqList : (a b : List Node) → Decidable (a = b)
  | [], [] => .isTrue rfl
  | [], _ :: _ => .isFalse (fun hh => by cases hh)
  | _ :: _, [] => .isFalse (fun hh => by cases hh)
  | x :: xs, y :: ys =>
      match nodeDecEq x y, nodeDecEqList xs ys with
      | .isTrue h1, .isTrue h2 => .isTrue (by rw [h1, h2])
      | .isFalse h1, _ => .isFalse (fun hh => h1 (by cases hh; rfl))
      | _, .isFalse h2 => .isFalse (fun hh => h2 (by cases hh; rfl))
end

instance : DecidableEq Node := nodeDecEq

namespace Node

def tagOf : Node → Str
  | text _ => []
  | elem t _ _ _ => t

def getAttr : Node → Str → Option Str
  | text _, _ => none
  | elem _ attrs _ _, k => (attrs.find? (fun p => p.1 == k)).map (·.2)

def classesOf : Node → List Str
  | text _ => []
  | elem _ _ cls _ => cls

end Node

mutual
/-- All descendants of a node in document order (the node itself excluded),
as `find_all` traverses them. -/
def descendants : Node → List Node
  | .text _ => []
  | .elem _ _ _ ch => descList ch

def descList : List Node → List Node
  | [] => []
  | c :: cs => c :: descendants c ++ descList cs
end

mutual
/-- The text-node strings of a subtree in document order (bs4 `_all_strings`). -/
def strings : Node → List Str
  | .text s => [s]
  | .elem _ _ _ ch => stringsList ch

def stringsList : List Node → List Str
  | [] => []
  | c :: cs => strings c ++ stringsList cs
end

/-- Python `s.strip()` (the documents here use ASCII whitespace). -/
def pyStrip (s : Str) : Str :=
  ((s.dropWhile Char.isWhitespace).reverse.dropWhile Char.isWhitespace).reverse

/-- bs4 `get_text(separator=sep, strip=True)`: strip every string, drop the
ones that become empty, join with `sep`. -/
def get_text (sep : Str) (n : Node) : Str :=
  List.intercalate sep (((strings n).map pyStrip).filter (fun s => s ≠ []))

mutual
/-- Every node of the document paired with its list of ancestors
(document order; the root carries `[]`). -/
def nodesWithAnc : List Node → Node → List (Node × List Node)
  | anc, .text s => [(.text s, anc)]
  | anc, .elem t a c ch =>
      (.elem t a c ch, anc) :: nodesWithAncList (anc ++ [Node.elem t a c ch]) ch

def nodesWithAncList : List Node → List Node → List (Node × List Node)
  | _, [] => []
  | anc, c :: cs => nodesWithAnc anc c ++ nodesWithAncList anc cs
end

/-- `soup.select` for the selector shapes the scripts use: a per-element
predicate that may inspect the ancestors (for descendant combinators).
Matches are returned in document order, as soupsieve does. -/
def select (doc : Node) (m : Node → List Node → Bool) : List Node :=
  (nodesWithAnc [] doc).filterMap (fun x => if m x.1 x.2 then some x.1 else none)

/-- `soup.find_all([t₁, …, tₙ])` in document order. -/
def find_all_tags (doc : Node) (tags : List Str) : List Node :=
  (nodesWithAnc [] doc).filterMap
    (fun x => if tags.any (fun t => x.1.tagOf == t) then some x.1 else none)

/-- `element.find_all('a', href=True)`: descendant anchors carrying an href. -/
def anchorsOf (el : Node) : List Node :=
  (descendants el).filter (fun n => n.tagOf == str "a" && (n.getAttr (str "href")).isSome)

/-- `a_tag.get('href', '')`. -/
def hrefOf (n : Node) : Str := (n.getAttr (str "href")).getD []

/-- `nav[aria-label="Navigation"]`. -/
def matchNavAriaExact (n : Node) : Bool :=
  n.tagOf == str "nav" && n.getAttr (str "aria-label") == some (str "Navigation")

/-- `nav[aria-label*="navigation" i]` (case-insensitive substring match). -/
def matchNavAriaContains (n : Node) : Bool :=
  n.tagOf == str "nav" &&
    (match n.getAttr (str "aria-label") with
     | some v => containsSub (pyLower v) (str "navigation")
     | none => false)

/-- `nav[role="navigation"]`. -/
def matchNavRole (n : Node) : Bool :=
  n.tagOf == str "nav" && n.getAttr (str "role") == some (str "navigation")

/-- `aside nav`. -/
def matchAsideNav (n : Node) (anc : List Node) : Bool :=
  n.tagOf == str "nav" && anc.any (fun a => a.tagOf == str "aside")

/-- `.sidebar nav`. -/
def matchClassSidebarNav (n : Node) (anc : List Node) : Bool :=
  n.tagOf == str "nav" && anc.any (fun a => a.classesOf.any (fun c => c == str "sidebar"))

/-- `#sidebar nav`. -/
def matchIdSidebarNav (n : Node) (anc : List Node) : Bool :=
  n.tagOf == str "nav" && anc.any (fun a => a.getAttr (str "id") == some (str "sidebar"))

/-- A sidebar candidate: `(element, reason, score)` tuples of the scripts.
The interpolated id/class tails of the provenance strings are display-only
and abbreviated here. -/
structure Cand where
  el : Node
  reason : Str
  score : Nat
deriving DecidableEq

/-- Stable insertion into a list already sorted by descending score. -/
def insertDesc (c : Cand) : List Cand → List Cand
  | [] => [c]
  | x :: xs => if x.score ≤ c.score then c :: x :: xs else x :: insertDesc c xs

/-- Python `list.sort(key=lambda x: x[2], reverse=True)`: a stable sort by
descending score (equal scores keep their original relative order). -/
def sortDesc (l : List Cand) : List Cand := l.foldr insertDesc []

namespace extract_links

/-- `count_internal_links(element, base_url, target_origin)`.  The Python
guard `if normalized:` is truthiness: `None` and the empty string both fail. -/
def count_internal_links (element : Node) (base_url target_origin : Str) : Nat :=
  (anchorsOf element).countP (fun a =>
    match normalize_url (hrefOf a) base_url target_origin with
    | some s => s ≠ []
    | none => false)

/-- Candidate discovery, phase 1: the CSS selector rules in priority order.
Every match is appended; this phase performs no de-duplication. -/
def selectorCandidates (soup : Node) : List Cand :=
  ((select soup (fun n _ => matchNavAriaExact n)).map
     (fun el => ⟨el, str "nav with aria-label Navigation", 0⟩))
  ++ ((select soup (fun n _ => matchNavRole n)).map
     (fun el => ⟨el, str "nav with role navigation", 0⟩))
  ++ ((select soup (fun n anc => matchAsideNav n anc)).map
     (fun el => ⟨el, str "nav inside aside element", 0⟩))

/-- One step of the phase-2 id/class scan: append the tag if its combined
id/class text matches a pattern and the tag is not already a candidate
(bs4 `in` compares tags structurally). -/
def scanStep (acc : List Cand) (tag : Node) : List Cand :=
  let tag_id := (tag.getAttr (str "id")).getD []
  let tag_class := List.intercalate (str " ") tag.classesOf
  let combined := pyLower (tag_id ++ ' ' :: tag_class)
  if (containsSub combined (str "sidebar") || containsSub combined (str "md-nav")
        || containsSub combined (str "site-nav"))
      && !(acc.any (fun c => c.el == tag))
  then acc ++ [⟨tag, str "element with id/class containing sidebar/nav pattern", 0⟩]
  else acc

/-- Full candidate discovery: selector rules, then the scan over every
`nav`/`aside`/`div`/`ul` element. -/
def candidates (soup : Node) : List Cand :=
  (find_all_tags soup [str "nav", str "aside", str "div", str "ul"]).foldl
    scanStep (selectorCandidates soup)

/-- The filter-and-score pass: drop candidates whose visible text contains
"on this page", give a 100 bonus for "navigation", add the internal-link
count. -/
def scored_candidates (soup : Node) (base_url target_origin : Str) : List Cand :=
  (candidates soup).filterMap (fun c =>
    let element_text := pyLower (get_text (str " ") c.el)
    if containsSub element_text (str "on this page") then none
    else
      some ⟨c.el, c.reason,
        (if containsSub element_text (str "navigation") then 100 else 0)
          + count_internal_links c.el base_url target_origin⟩)

/-- `extract_links.find_sidebar_container`. -/
def find_sidebar_container (soup : Node) (base_url target_origin : Str) : Option Node :=
  if (candidates soup).isEmpty then none
  else
    let scored := scored_candidates soup base_url target_origin
    if scored.isEmpty then none
    else (sortDesc scored).head?.map (·.el)

end extract_links

namespace scrape_links

/-- `scrape_links.count_internal_links(element, base_url)`. -/
def count_internal_links (element : Node) (base_url : Str) : Nat :=
  (anchorsOf element).countP (fun a =>
    match normalize_url (hrefOf a) base_url with
    | some s => s ≠ [] && is_internal_url s base_url
    | none => false)

/-- Candidate discovery, phase 1: the six CSS selector rules in priority
order; no de-duplication. -/
def selectorCandidates (soup : Node) : List Cand :=
  ((select soup (fun n _ => matchNavAriaExact n)).map
     (fun el => ⟨el, str "nav with aria-label Navigation", 0⟩))
  ++ ((select soup (fun n _ => matchNavAriaContains n)).map
     (fun el => ⟨el, str "nav with aria-label containing navigation", 0⟩))
  ++ ((select soup (fun n _ => matchNavRole n)).map
     (fun el => ⟨el, str "nav with role navigation", 0⟩))
  ++ ((select soup (fun n anc => matchAsideNav n anc)).map
     (fun el => ⟨el, str "nav inside aside element", 0⟩))
  ++ ((select soup (fun n anc => matchClassSidebarNav n anc)).map
     (fun el => ⟨el, str "nav inside .sidebar", 0⟩))
  ++ ((select soup (fun n anc => matchIdSidebarNav n anc)).map
     (fun el => ⟨el, str "nav inside #sidebar", 0⟩))

/-- Phase-2 id/class scan step (patterns `sidebar`, `sidenav`, `site-nav`). -/
def scanStep (acc : List Cand) (tag : Node) : List Cand :=
  let tag_id := (tag.getAttr (str "id")).getD []
  let tag_class := List.intercalate (str " ") tag.classesOf
  let combined := pyLower (tag_id ++ ' ' :: tag_class)
  if (containsSub combined (str "sidebar") || containsSub combined (str "sidenav")
        || containsSub combined (str "site-nav"))
      && !(acc.any (fun c => c.el == tag))
  then acc ++ [⟨tag, str "element with sidebar/nav pattern", 0⟩]
  else acc

def candidates (soup : Node) : List Cand :=
  (find_all_tags soup [str "nav", str "aside", str "div", str "ul"]).foldl
    scanStep (selectorCandidates soup)

/-- Filter-and-score: exclusion phrases "on this page" and
"table of contents", then the 100 "navigation" bonus plus link count. -/
def scored_candidates (soup : Node) (base_url : Str) : List Cand :=
  (candidates soup).filterMap (fun c =>
    let element_text := pyLower (get_text (str " ") c.el)
    if containsSub element_text (str "on this page")
        || containsSub element_text (str "table of contents") then none
    else
      some ⟨c.el, c.reason,
        (if containsSub element_text (str "navigation") then 100 else 0)
          + count_internal_links c.el base_url⟩)

/-- `scrape_links.find_sidebar_container`. -/
def find_sidebar_container (soup : Node) (base_url : Str) : Option Node :=
  if (candidates soup).isEmpty then none
  else
    let scored := scored_candidates soup base_url
    if scored.isEmpty then none
    else (sortDesc scored).head?.map (·.el)

end scrape_links

/-! ## Orchestrators

The network fetch and file writing are external collaborators: each
orchestrator is modelled as a pure function from the fetch outcome (the
parsed document on success, or the failure kind) to the exit status paired
with the sequence of output-file operations the run performs. -/

/-- Outcome of `requests.get` + `raise_for_status` in `extract_sidebar_links`. -/
inductive FetchResult where
  | success (doc : Node)
  | timeout
  | connectionError
  | httpError
  | requestError

/-- An operation on the output file / its directory. -/
inductive FileOp where
  | makedirs
  | write (lines : List Str)
deriving DecidableEq

namespace extract_links

/-- The link-collection loop of `extract_sidebar_links` (seen-set plus
first-seen-order list; `if normalized and normalized not in seen_urls`). -/
def linkLoop (start_url target_origin : Str) (seen unique_links : List Str) :
    List Node → List Str
  | [] => unique_links
  | a :: rest =>
    match normalize_url (hrefOf a) start_url target_origin with
    | some n =>
        if n ≠ [] ∧ n ∉ seen
        then linkLoop start_url target_origin (n :: seen) (unique_links ++ [n]) rest
        else linkLoop start_url target_origin seen unique_links rest
    | none => linkLoop start_url target_origin seen unique_links rest

/-- `extract_sidebar_links(start_url, output_file)`: exit status and the
output-file operations performed.  The directory always gets created in the
success path (the script skips `makedirs` only for a bare filename). -/
def extract_sidebar_links (start_url : Str) (fetched : FetchResult) : Nat × List FileOp :=
  let parsed_start := urllib.urlparse start_url []
  let target_origin := parsed_start.scheme ++ str "://" ++ parsed_start.netloc
  match fetched with
  | .timeout => (1, [])
  | .connectionError => (1, [])
  | .httpError => (1, [])
  | .requestError => (1, [])
  | .success soup =>
    match find_sidebar_container soup start_url target_origin with
    | none => (1, [])
    | some sidebar =>
        (0, [.makedirs, .write (linkLoop start_url target_origin [] [] (anchorsOf sidebar))])

end extract_links

namespace scrape_links

inductive Scope where
  | all
  | internal
  | external
  | sidebar
deriving DecidableEq

/-- The link-collection loop of `scrape_links`: normalize, truthiness check,
scope filter, then first-seen de-duplication recording the display text. -/
def linkLoop (url : Str) (scope : Scope) (include_text : Bool)
    (seen : List Str) (results : List (Str × Str)) : List Node → List (Str × Str)
  | [] => results
  | a :: rest =>
    match normalize_url (hrefOf a) url with
    | none => linkLoop url scope include_text seen results rest
    | some n =>
      if n = [] then linkLoop url scope include_text seen results rest
      else
        let is_internal := is_internal_url n url
        if (scope = .internal ∨ scope = .sidebar) ∧ is_internal = false then
          linkLoop url scope include_text seen results rest
        else if scope = .external ∧ is_internal = true then
          linkLoop url scope include_text seen results rest
        else if n ∉ seen then
          linkLoop url scope include_text (n :: seen)
            (results ++ [(n, if include_text then get_text [] a else [])]) rest
        else linkLoop url scope include_text seen results rest

/-- Output formatting: `f"{link} | {text}"` when text was requested and is
non-empty, else the bare link. -/
def outputLines (include_text : Bool) (results : List (Str × Str)) : List Str :=
  results.map (fun p => if include_text ∧ p.2 ≠ [] then p.1 ++ str " | " ++ p.2 else p.1)

/-- `scrape_links(url, output_file, scope, …)`: exit status and output-file
operations, given the outcome of `fetch_page_html` (which returns `None` on
every fetch-failure kind). -/
def scrape_links (url : Str) (scope : Scope) (include_text : Bool)
    (fetched : Option Node) : Nat × List FileOp :=
  match fetched with
  | none => (1, [])
  | some soup =>
    let containerOpt := if scope = .sidebar then find_sidebar_container soup url else some soup
    match containerOpt with
    | none => (1, [])
    | some container =>
        let results := linkLoop url scope include_text [] [] (anchorsOf container)
        (0, [.makedirs, .write (outputLines include_text results)])

end scrape_links

/-! ## Spec-side definitions and helper lemmas -/

/-- The maximal score among a candidate list (`0` for the empty list). -/
def maxScore (l : List Cand) : Nat := l.foldr (fun c m => max c.score m) 0

theorem maxScore_cons (a : Cand) (l : List Cand) :
    maxScore (a :: l) = max a.score (maxScore l) := rfl

theorem le_maxScore {l : List Cand} {c : Cand} (h : c ∈ l) : c.score ≤ maxScore l := by
  induction l with
  | nil => cases h
  | cons a t ih =>
    rcases List.mem_cons.mp h with rfl | ht
    · exact le_max_left _ _
    · exact le_trans (ih ht) (le_max_right _ _)

theorem sortDesc_cons (x : Cand) (xs : List Cand) :
    sortDesc (x :: xs) = insertDesc x (sortDesc xs) := rfl

theorem insertDesc_ne_nil (c : Cand) (l : List Cand) : insertDesc c l ≠ [] := by
  cases l with
  | nil => simp [insertDesc]
  | cons x xs => simp only [insertDesc]; split <;> simp

theorem sortDesc_eq_nil {l : List Cand} (h : sortDesc l = []) : l = [] := by
  cases l with
  | nil => rfl
  | cons x xs => exact absurd h (insertDesc_ne_nil x (sortDesc xs))

theorem mem_insertDesc {a c : Cand} {l : List Cand} :
    a ∈ insertDesc c l ↔ a = c ∨ a ∈ l := by
  induction l with
  | nil => simp [insertDesc]
  | cons x xs ih =>
    simp only [insertDesc]
    split
    · simp [List.mem_cons]
    · simp [List.mem_cons, ih]; tauto

theorem mem_sortDesc {a : Cand} {l : List Cand} : a ∈ sortDesc l ↔ a ∈ l := by
  induction l with
  | nil => simp [sortDesc]
  | cons x xs ih => rw [sortDesc_cons, mem_insertDesc, ih, List.mem_cons]

/-- The head of the stable descending sort is the first list element whose
score equals the maximum. -/
theorem head?_sortDesc (l : List Cand) :
    (sortDesc l).head? = l.find? (fun c => c.score == maxScore l) := by
  induction l with
  | nil => rfl
  | cons a t ih =>
    rw [sortDesc_cons]
    cases hs : sortDesc t with
    | nil =>
      have ht : t = [] := sortDesc_eq_nil hs
      subst ht
      simp [insertDesc, maxScore]
    | cons h s =>
      have hfind : t.find? (fun c => c.score == maxScore t) = some h := by
        rw [← ih, hs]; rfl
      have hmax : h.score = maxScore t := by
        have := List.find?_some hfind
        simpa using this
      by_cases hle : h.score ≤ a.score
      · have hm : maxScore (a :: t) = a.score := by
          rw [maxScore_cons, ← hmax]; exact Nat.max_eq_left hle
        rw [List.find?_cons_of_pos _ (by simp [hm]), insertDesc]
        simp [hle]
      · have hlt : a.score < h.score := Nat.lt_of_not_le hle
        have hm : maxScore (a :: t) = maxScore t := by
          rw [maxScore_cons, ← hmax]; exact Nat.max_eq_right (Nat.le_of_lt hlt)
        rw [List.find?_cons_of_neg _ (by simp [hm, ← hmax, Nat.ne_of_lt hlt]), hm, hfind,
          insertDesc]
        simp [hle]

theorem find_sidebar_first_max_x (soup : Node) (base target : Str) :
    extract_links.find_sidebar_container soup base target
      = ((extract_links.scored_candidates soup base target).find?
          (fun c => c.score == maxScore (extract_links.scored_candidates soup base target))).map
          (fun c => c.el) := by
  unfold extract_links.find_sidebar_container
  by_cases hc : (extract_links.candidates soup).isEmpty
  · have hnil : extract_links.candidates soup = [] := by
      simpa using hc
    simp [hc, extract_links.scored_candidates, hnil]
  · by_cases hsc : (extract_links.scored_candidates soup base target).isEmpty
    · have hnil : extract_links.scored_candidates soup base target = [] := by
        simpa using hsc
      simp [hc, hsc, hnil]
    · simp [hc, hsc, head?_sortDesc]

theorem find_sidebar_first_max_s (soup : Node) (base : Str) :
    scrape_links.find_sidebar_container soup base
      = ((scrape_links.scored_candidates soup base).find?
          (fun c => c.score == maxScore (scrape_links.scored_candidates soup base))).map
          (fun c => c.el) := by
  unfold scrape_links.find_sidebar_container
  by_cases hc : (scrape_links.candidates soup).isEmpty
  · have hnil : scrape_links.candidates soup = [] := by
      simpa using hc
    simp [hc, scrape_links.scored_candidates, hnil]
  · by_cases hsc : (scrape_links.scored_candidates soup base).isEmpty
    · have hnil : scrape_links.scored_candidates soup base = [] := by
        simpa using hsc
      simp [hc, hsc, hnil]
    · simp [hc, hsc, head?_sortDesc]

theorem scored_mem_formula_x {soup : Node} {base target : Str} {c : Cand}
    (h : c ∈ extract_links.scored_candidates soup base target) :
    c.score = (if containsSub (pyLower (get_text (str " ") c.el)) (str "navigation")
               then 100 else 0) + extract_links.count_internal_links c.el base target := by
  unfold extract_links.scored_candidates at h
  obtain ⟨a, _, hfa⟩ := List.mem_filterMap.mp h
  by_cases hexc : containsSub (pyLower (get_text (str " ") a.el)) (str "on this page") = true
  · simp [hexc] at hfa
  · simp [hexc] at hfa
    subst hfa
    rfl

theorem scored_mem_formula_s {soup : Node} {base : Str} {c : Cand}
    (h : c ∈ scrape_links.scored_candidates soup base) :
    c.score = (if containsSub (pyLower (get_text (str " ") c.el)) (str "navigation")
               then 100 else 0) + scrape_links.count_internal_links c.el base := by
  unfold scrape_links.scored_candidates at h
  obtain ⟨a, _, hfa⟩ := List.mem_filterMap.mp h
  by_cases hexc : (containsSub (pyLower (get_text (str " ") a.el)) (str "on this page")
      || containsSub (pyLower (get_text (str " ") a.el)) (str "table of contents")) = true
  · simp only [hexc] at hfa
    simp at hfa
  · simp only [hexc] at hfa
    simp at hfa
    subst hfa
    rfl

theorem find_some_max_x {soup : Node} {base target : Str} {el : Node}
    (h : extract_links.find_sidebar_container soup base target = some el) :
    ∃ c ∈ extract_links.scored_candidates soup base target,
      c.el = el ∧ ∀ d ∈ extract_links.scored_candidates soup base target, d.score ≤ c.score := by
  rw [find_sidebar_first_max_x] at h
  obtain ⟨c, hc, hel⟩ := Option.map_eq_some'.mp h
  refine ⟨c, List.mem_of_find?_eq_some hc, hel, ?_⟩
  intro d hd
  have hce : c.score = maxScore (extract_links.scored_candidates soup base target) := by
    simpa using List.find?_some hc
  rw [hce]
  exact le_maxScore hd

theorem find_some_max_s {soup : Node} {base : Str} {el : Node}
    (h : scrape_links.find_sidebar_container soup base = some el) :
    ∃ c ∈ scrape_links.scored_candidates soup base,
      c.el = el ∧ ∀ d ∈ scrape_links.scored_candidates soup base, d.score ≤ c.score := by
  rw [find_sidebar_first_max_s] at h
  obtain ⟨c, hc, hel⟩ := Option.map_eq_some'.mp h
  refine ⟨c, List.mem_of_find?_eq_some hc, hel, ?_⟩
  intro d hd
  have hce : c.score = maxScore (scrape_links.scored_candidates soup base) := by
    simpa using List.find?_some hc
  rw [hce]
  exact le_maxScore hd

/-! ## Concrete example documents -/

/-- An internal anchor (`<a href="/a">Link</a>`). -/
def aAnchor : Node := .elem (str "a") [(str "href", str "/a")] [] [.text (str "Link")]

def bAnchor : Node := .elem (str "a") [(str "href", str "/b")] [] [.text (str "Link")]

/-- A nav whose text contains "Navigation" and which holds 5 internal links. -/
def exNav1 : Node :=
  .elem (str "nav") [(str "aria-label", str "Navigation")] []
    (.text (str "Navigation") :: List.replicate 5 aAnchor)

/-- A sidebar-classed div holding 50 internal links and no "navigation" text. -/
def exDiv1 : Node := .elem (str "div") [] [str "sidebar"] (List.replicate 50 bAnchor)

def exDoc1 : Node := .elem (str "html") [] [] [exNav1, exDiv1]

def exBase : Str := str "https://h/"

def exTarget : Str := str "https://h"

/-! ## Claims -/

/-- C1: every surviving sidebar candidate's score equals the 100 bonus for a
"navigation" substring of its flattened lower-cased text plus the count of
anchors in its subtree whose href normalizes to an internal link, and
`find_sidebar_container` returns a candidate of maximal score — in both
scripts. -/
theorem C1_candidate_scoring :
    (∀ soup base target c, c ∈ extract_links.scored_candidates soup base target →
        c.score = (if containsSub (pyLower (get_text (str " ") c.el)) (str "navigation")
                   then 100 else 0) + extract_links.count_internal_links c.el base target)
  ∧ (∀ soup base target el,
        extract_links.find_sidebar_container soup base target = some el →
        ∃ c ∈ extract_links.scored_candidates soup base target,
          c.el = el ∧ ∀ d ∈ extract_links.scored_candidates soup base target, d.score ≤ c.score)
  ∧ (∀ soup base c, c ∈ scrape_links.scored_candidates soup base →
        c.score = (if containsSub (pyLower (get_text (str " ") c.el)) (str "navigation")
                   then 100 else 0) + scrape_links.count_internal_links c.el base)
  ∧ (∀ soup base el,
        scrape_links.find_sidebar_container soup base = some el →
        ∃ c ∈ scrape_links.scored_candidates soup base,
          c.el = el ∧ ∀ d ∈ scrape_links.scored_candidates soup base, d.score ≤ c.score) :=
  ⟨fun _ _ _ _ h => scored_mem_formula_x h,
   fun _ _ _ _ h => find_some_max_x h,
   fun _ _ _ h => scored_mem_formula_s h,
   fun _ _ _ h => find_some_max_s h⟩

/-- Witness for C1 at the spec's concrete scenario: a "navigation" candidate
with 5 internal links (score 105) is selected over a candidate with 50
internal links and no "navigation" text (score 50), in both scripts. -/
theorem C1_candidate_scoring_witness :
    ((extract_links.scored_candidates exDoc1 exBase exTarget).map Cand.score = [105, 50]
      ∧ extract_links.find_sidebar_container exDoc1 exBase exTarget = some exNav1
      ∧ ∃ c ∈ extract_links.scored_candidates exDoc1 exBase exTarget,
          c.el = exNav1 ∧ ∀ d ∈ extract_links.scored_candidates exDoc1 exBase exTarget,
            d.score ≤ c.score)
    ∧ ((scrape_links.scored_candidates exDoc1 exBase).map Cand.score = [105, 105, 50]
      ∧ scrape_links.find_sidebar_container exDoc1 exBase = some exNav1
      ∧ ∃ c ∈ scrape_links.scored_candidates exDoc1 exBase,
          c.el = exNav1 ∧ ∀ d ∈ scrape_links.scored_candidates exDoc1 exBase,
            d.score ≤ c.score) :=
  ⟨⟨by decide, by decide, C1_candidate_scoring.2.1 exDoc1 exBase exTarget exNav1 (by decide)⟩,
   ⟨by decide, by decide, C1_candidate_scoring.2.2.2 exDoc1 exBase exNav1 (by decide)⟩⟩

/-- C3: the sort by descending score is stable, so among surviving candidates
sharing the maximal score the one appearing earliest in the finder's
candidate sequence is returned: in both scripts the selection equals the
first scored candidate whose score attains the maximum. -/
theorem C3_stable_tie_break :
    (∀ soup base target,
      extract_links.find_sidebar_container soup base target
        = ((extract_links.scored_candidates soup base target).find?
            (fun c => c.score == maxScore (extract_links.scored_candidates soup base target))).map
            (fun c => c.el))
  ∧ (∀ soup base,
      scrape_links.find_sidebar_container soup base
        = ((scrape_links.scored_candidates soup base).find?
            (fun c => c.score == maxScore (scrape_links.scored_candidates soup base))).map
            (fun c => c.el)) :=
  ⟨find_sidebar_first_max_x, find_sidebar_first_max_s⟩

theorem scored_not_excluded_x {soup : Node} {base target : Str} {c : Cand}
    (h : c ∈ extract_links.scored_candidates soup base target) :
    containsSub (pyLower (get_text (str " ") c.el)) (str "on this page") = false := by
  unfold extract_links.scored_candidates at h
  obtain ⟨a, _, hfa⟩ := List.mem_filterMap.mp h
  by_cases hexc : containsSub (pyLower (get_text (str " ") a.el)) (str "on this page") = true
  · simp [hexc] at hfa
  · simp [hexc] at hfa
    subst hfa
    simpa using hexc

theorem scored_not_excluded_s {soup : Node} {base : Str} {c : Cand}
    (h : c ∈ scrape_links.scored_candidates soup base) :
    containsSub (pyLower (get_text (str " ") c.el)) (str "on this page") = false
      ∧ containsSub (pyLower (get_text (str " ") c.el)) (str "table of contents") = false := by
  unfold scrape_links.scored_candidates at h
  obtain ⟨a, _, hfa⟩ := List.mem_filterMap.mp h
  by_cases hexc : (containsSub (pyLower (get_text (str " ") a.el)) (str "on this page")
      || containsSub (pyLower (get_text (str " ") a.el)) (str "table of contents")) = true
  · simp only [hexc] at hfa
    simp at hfa
  · simp only [hexc] at hfa
    simp at hfa
    subst hfa
    simpa using hexc

/-- C2: a candidate whose flattened, lower-cased visible text contains
"on this page" (or, in `scrape_links`, also "table of contents") is dropped
before scoring — it never appears among the scored candidates and is never
the container returned by `find_sidebar_container`, whatever its link count
or "navigation" text. -/
theorem C2_toc_exclusion :
    (∀ soup base target c, c ∈ extract_links.scored_candidates soup base target →
        containsSub (pyLower (get_text (str " ") c.el)) (str "on this page") = false)
  ∧ (∀ soup base target el, extract_links.find_sidebar_container soup base target = some el →
        containsSub (pyLower (get_text (str " ") el)) (str "on this page") = false)
  ∧ (∀ soup base c, c ∈ scrape_links.scored_candidates soup base →
        containsSub (pyLower (get_text (str " ") c.el)) (str "on this page") = false
          ∧ containsSub (pyLower (get_text (str " ") c.el)) (str "table of contents") = false)
  ∧ (∀ soup base el, scrape_links.find_sidebar_container soup base = some el →
        containsSub (pyLower (get_text (str " ") el)) (str "on this page") = false
          ∧ containsSub (pyLower (get_text (str " ") el)) (str "table of contents") = false) := by
  refine ⟨fun _ _ _ _ h => scored_not_excluded_x h, ?_, fun _ _ _ h => scored_not_excluded_s h, ?_⟩
  · intro soup base target el h
    obtain ⟨c, hc, hel, -⟩ := find_some_max_x h
    exact hel ▸ scored_not_excluded_x hc
  · intro soup base el h
    obtain ⟨c, hc, hel, -⟩ := find_some_max_s h
    exact hel ▸ scored_not_excluded_s hc

/-- A navigation-role nav whose visible text is a table-of-contents marker. -/
def exToc : Node :=
  .elem (str "nav") [(str "role", str "navigation")] []
    [.text (str "On this page"), aAnchor]

def exSide2 : Node := .elem (str "div") [] [str "sidebar"] [bAnchor]

def exDoc2 : Node := .elem (str "html") [] [] [exToc, exSide2]

/-- Witness for C2: in a document whose navigation-role element says
"On this page", both scripts return the surviving sidebar-classed div. -/
theorem C2_toc_exclusion_witness :
    (extract_links.find_sidebar_container exDoc2 exBase exTarget = some exSide2
      ∧ containsSub (pyLower (get_text (str " ") exSide2)) (str "on this page") = false
      ∧ containsSub
          (pyLower (get_text (str " ")
            (Cand.el ⟨exSide2, str "element with id/class containing sidebar/nav pattern", 1⟩)))
          (str "on this page") = false)
    ∧ (scrape_links.find_sidebar_container exDoc2 exBase = some exSide2
      ∧ (containsSub (pyLower (get_text (str " ") exSide2)) (str "on this page") = false
          ∧ containsSub (pyLower (get_text (str " ") exSide2)) (str "table of contents") = false)
      ∧ (containsSub
            (pyLower (get_text (str " ")
              (Cand.el ⟨exSide2, str "element with sidebar/nav pattern", 1⟩)))
            (str "on this page") = false
          ∧ containsSub
              (pyLower (get_text (str " ")
                (Cand.el ⟨exSide2, str "element with sidebar/nav pattern", 1⟩)))
              (str "table of contents") = false)) :=
  ⟨⟨by decide,
    C2_toc_exclusion.2.1 exDoc2 exBase exTarget exSide2 (by decide),
    C2_toc_exclusion.1 exDoc2 exBase exTarget _ (by decide)⟩,
   ⟨by decide,
    C2_toc_exclusion.2.2.2 exDoc2 exBase exSide2 (by decide),
    C2_toc_exclusion.2.2.1 exDoc2 exBase _ (by decide)⟩⟩

/-- Generic de-duplication property of the phase-2 scan fold: every appended
candidate's element was absent from the accumulator at the moment of
appending. -/
theorem foldl_scan_dedup (step : List Cand → Node → List Cand)
    (hstep : ∀ acc tag, step acc tag = acc
      ∨ ∃ r, step acc tag = acc ++ [⟨tag, r, 0⟩] ∧ tag ∉ acc.map Cand.el) :
    ∀ (tags : List Node) (init : List Cand),
      ∃ added, tags.foldl step init = init ++ added
        ∧ (added.map Cand.el).Nodup
        ∧ ∀ e ∈ added.map Cand.el, e ∉ init.map Cand.el := by
  intro tags
  induction tags with
  | nil => exact fun init => ⟨[], by simp, by simp, by simp⟩
  | cons t ts ih =>
    intro init
    rcases hstep init t with hskip | ⟨r, happ, hnew⟩
    · obtain ⟨added, heq, hnd, hni⟩ := ih init
      exact ⟨added, by simpa [hskip] using heq, hnd, hni⟩
    · obtain ⟨added, heq, hnd, hni⟩ := ih (init ++ [⟨t, r, 0⟩])
      refine ⟨⟨t, r, 0⟩ :: added, ?_, ?_, ?_⟩
      · simp only [List.foldl_cons, happ, heq, List.append_assoc, List.singleton_append]
      · refine List.nodup_cons.mpr ⟨?_, hnd⟩
        intro hmem
        have := hni _ hmem
        simp at this
      · intro e he
        simp only [List.map_cons, List.mem_cons] at he
        rcases he with rfl | hrest
        · exact hnew
        · intro hin
          exact hni e hrest (by simp [hin])

theorem scanStep_shape_x : ∀ acc tag, extract_links.scanStep acc tag = acc
    ∨ ∃ r, extract_links.scanStep acc tag = acc ++ [⟨tag, r, 0⟩] ∧ tag ∉ acc.map Cand.el := by
  intro acc tag
  unfold extract_links.scanStep
  by_cases hcond : ((containsSub (pyLower ((tag.getAttr (str "id")).getD []
        ++ ' ' :: List.intercalate (str " ") tag.classesOf)) (str "sidebar")
      || containsSub (pyLower ((tag.getAttr (str "id")).getD []
        ++ ' ' :: List.intercalate (str " ") tag.classesOf)) (str "md-nav")
      || containsSub (pyLower ((tag.getAttr (str "id")).getD []
        ++ ' ' :: List.intercalate (str " ") tag.classesOf)) (str "site-nav"))
      && !(acc.any (fun c => c.el == tag))) = true
  · refine Or.inr ⟨str "element with id/class containing sidebar/nav pattern",
      by rw [if_pos hcond], ?_⟩
    have := (Bool.and_eq_true _ _).mp hcond |>.2
    simp only [Bool.not_eq_true', List.any_eq_false] at this
    intro hmem
    obtain ⟨c, hc, hcel⟩ := List.mem_map.mp hmem
    have := this c hc
    simp [hcel] at this
  · exact Or.inl (if_neg hcond)

theorem scanStep_shape_s : ∀ acc tag, scrape_links.scanStep acc tag = acc
    ∨ ∃ r, scrape_links.scanStep acc tag = acc ++ [⟨tag, r, 0⟩] ∧ tag ∉ acc.map Cand.el := by
  intro acc tag
  unfold scrape_links.scanStep
  by_cases hcond : ((containsSub (pyLower ((tag.getAttr (str "id")).getD []
        ++ ' ' :: List.intercalate (str " ") tag.classesOf)) (str "sidebar")
      || containsSub (pyLower ((tag.getAttr (str "id")).getD []
        ++ ' ' :: List.intercalate (str " ") tag.classesOf)) (str "sidenav")
      || containsSub (pyLower ((tag.getAttr (str "id")).getD []
        ++ ' ' :: List.intercalate (str " ") tag.classesOf)) (str "site-nav"))
      && !(acc.any (fun c => c.el == tag))) = true
  · refine Or.inr ⟨str "element with sidebar/nav pattern",
      by rw [if_pos hcond], ?_⟩
    have := (Bool.and_eq_true _ _).mp hcond |>.2
    simp only [Bool.not_eq_true', List.any_eq_false] at this
    intro hmem
    obtain ⟨c, hc, hcel⟩ := List.mem_map.mp hmem
    have := this c hc
    simp [hcel] at this
  · exact Or.inl (if_neg hcond)

/-- A nav carrying both an exact "Navigation" aria-label and a navigation
role: it matches several CSS selector rules at once. -/
def exDupNav : Node :=
  .elem (str "nav")
    [(str "aria-label", str "Navigation"), (str "role", str "navigation")] [] [aAnchor]

def exDoc5 : Node := .elem (str "html") [] [] [exDupNav]

/-- C5 counterexample: the candidate sequence is NOT duplicate-free — an
element matching several CSS selector rules is appended once per rule
(twice in extract_links, three times in scrape_links), because the
CSS-selector phase performs no de-duplication. -/
theorem C5_counterexample :
    ((extract_links.candidates exDoc5).map Cand.el).count exDupNav = 2
    ∧ ¬ ((extract_links.candidates exDoc5).map Cand.el).Nodup
    ∧ ((scrape_links.candidates exDoc5).map Cand.el).count exDupNav = 3
    ∧ ¬ ((scrape_links.candidates exDoc5).map Cand.el).Nodup := by decide

/-- C5 amended: de-duplication (by bs4 tag equality) happens only in the
id/class scan phase — the scan never appends an element already present as
a candidate, and its additions are pairwise distinct — while the
CSS-selector phase appends one candidate per matching rule, so an element
matching several selector rules does appear several times. -/
theorem C5_scan_phase_dedup :
    ∀ soup,
      (∃ added, extract_links.candidates soup = extract_links.selectorCandidates soup ++ added
        ∧ (added.map Cand.el).Nodup
        ∧ ∀ e ∈ added.map Cand.el, e ∉ (extract_links.selectorCandidates soup).map Cand.el)
    ∧ (∃ added, scrape_links.candidates soup = scrape_links.selectorCandidates soup ++ added
        ∧ (added.map Cand.el).Nodup
        ∧ ∀ e ∈ added.map Cand.el, e ∉ (scrape_links.selectorCandidates soup).map Cand.el) :=
  fun soup =>
    ⟨foldl_scan_dedup extract_links.scanStep scanStep_shape_x
        (find_all_tags soup [str "nav", str "aside", str "div", str "ul"])
        (extract_links.selectorCandidates soup),
     foldl_scan_dedup scrape_links.scanStep scanStep_shape_s
        (find_all_tags soup [str "nav", str "aside", str "div", str "ul"])
        (scrape_links.selectorCandidates soup)⟩

/-! ## C6: first-seen de-duplication -/

/-- Spec-side definition (from the spec's words, for comparison with the
loops): keep only the first occurrence of each key, in order. -/
def specFirstOccurrencesBy {α : Type} (key : α → Str) : List α → List α
  | [] => []
  | p :: rest => p :: specFirstOccurrencesBy key (rest.filter (fun q => key q ≠ key p))
termination_by l => l.length
decreasing_by
  simp only [List.length_cons]
  exact Nat.lt_succ_of_le (List.length_filter_le _ _)

theorem specFirstOccurrencesBy_cons {α : Type} (key : α → Str) (p : α) (rest : List α) :
    specFirstOccurrencesBy key (p :: rest)
      = p :: specFirstOccurrencesBy key (rest.filter (fun q => key q ≠ key p)) := by
  rw [specFirstOccurrencesBy]

theorem specFirstOccurrencesBy_sublist {α : Type} (key : α → Str) (l : List α) :
    (specFirstOccurrencesBy key l).Sublist l := by
  induction l using specFirstOccurrencesBy.induct key with
  | case1 => simp [specFirstOccurrencesBy]
  | case2 p rest ih =>
    rw [specFirstOccurrencesBy_cons]
    exact List.Sublist.cons₂ p (ih.trans (List.filter_sublist rest))

theorem specFirstOccurrencesBy_not_mem {α : Type} (key : α → Str) (k : Str) (l : List α)
    (h : ∀ q ∈ l, key q ≠ k) : ∀ q ∈ specFirstOccurrencesBy key l, key q ≠ k :=
  fun q hq => h q ((specFirstOccurrencesBy_sublist key l).mem hq)

theorem specFirstOccurrencesBy_nodup {α : Type} (key : α → Str) (l : List α) :
    ((specFirstOccurrencesBy key l).map key).Nodup := by
  induction l using specFirstOccurrencesBy.induct key with
  | case1 => simp [specFirstOccurrencesBy]
  | case2 p rest ih =>
    rw [specFirstOccurrencesBy_cons, List.map_cons, List.nodup_cons]
    refine ⟨?_, ih⟩
    intro hmem
    obtain ⟨q, hq, hkey⟩ := List.mem_map.mp hmem
    exact specFirstOccurrencesBy_not_mem key (key p) _
      (fun r hr => by simpa using (List.mem_filter.mp hr).2) q hq hkey

/-- The pre-deduplication stream of `extract_sidebar_links`' loop: the
normalized hrefs (in traversal order) that pass the truthiness guard. -/
def specProcessedExtract (start_url target_origin : Str) (anchors : List Node) : List Str :=
  anchors.filterMap (fun a =>
    match extract_links.normalize_url (hrefOf a) start_url target_origin with
    | some n => if n ≠ [] then some n else none
    | none => none)

/-- The pre-deduplication stream of `scrape_links`' loop: normalized hrefs
passing truthiness and the scope filter, paired with the display text the
loop would record. -/
def specProcessedScrape (url : Str) (scope : scrape_links.Scope) (include_text : Bool)
    (anchors : List Node) : List (Str × Str) :=
  anchors.filterMap (fun a =>
    match scrape_links.normalize_url (hrefOf a) url with
    | none => none
    | some n =>
      if n = [] then none
      else if (scope = .internal ∨ scope = .sidebar) ∧ scrape_links.is_internal_url n url = false
        then none
      else if scope = .external ∧ scrape_links.is_internal_url n url = true then none
      else some (n, if include_text then get_text [] a else []))

theorem linkLoop_spec_x (start_url target_origin : Str) :
    ∀ (anchors : List Node) (seen unique : List Str),
      extract_links.linkLoop start_url target_origin seen unique anchors
        = unique ++ specFirstOccurrencesBy id
            ((specProcessedExtract start_url target_origin anchors).filter
              (fun n => n ∉ seen)) := by
  intro anchors
  induction anchors with
  | nil => intro seen unique; simp [extract_links.linkLoop, specProcessedExtract,
      specFirstOccurrencesBy]
  | cons a rest ih =>
    intro seen unique
    rw [extract_links.linkLoop]
    cases hn : extract_links.normalize_url (hrefOf a) start_url target_origin with
    | none =>
        rw [ih]
        simp [specProcessedExtract, hn]
    | some n =>
        dsimp only
        by_cases hne : n = []
        · subst hne
          have : ¬(([] : Str) ≠ [] ∧ ([] : Str) ∉ seen) := by simp
          rw [if_neg this, ih]
          simp [specProcessedExtract, hn]
        · by_cases hseen : n ∈ seen
          · have : ¬(n ≠ [] ∧ n ∉ seen) := by simp [hseen]
            rw [if_neg this, ih]
            simp [specProcessedExtract, hn, hne, hseen]
          · rw [if_pos ⟨hne, hseen⟩, ih]
            have hfil : (specProcessedExtract start_url target_origin rest).filter
                (fun m => m ∉ (n :: seen))
              = ((specProcessedExtract start_url target_origin rest).filter
                  (fun m => m ∉ seen)).filter (fun m => id m ≠ id n) := by
              rw [List.filter_filter]
              apply List.filter_congr
              intro m _
              by_cases h1 : m ∈ seen <;> by_cases h2 : m = n <;>
                simp [h1, h2, List.mem_cons]
            simp only [specProcessedExtract, List.filterMap_cons, hn, if_pos hne]
            rw [List.filter_cons_of_pos (by simpa using hseen),
              specFirstOccurrencesBy_cons]
            simp only [specProcessedExtract] at hfil
            rw [← hfil]
            simp

theorem linkLoop_spec_s (url : Str) (scope : scrape_links.Scope) (include_text : Bool) :
    ∀ (anchors : List Node) (seen : List Str) (results : List (Str × Str)),
      scrape_links.linkLoop url scope include_text seen results anchors
        = results ++ specFirstOccurrencesBy Prod.fst
            ((specProcessedScrape url scope include_text anchors).filter
              (fun p => p.1 ∉ seen)) := by
  intro anchors
  induction anchors with
  | nil =>
    intro seen results
    simp [scrape_links.linkLoop, specProcessedScrape, specFirstOccurrencesBy]
  | cons a rest ih =>
    intro seen results
    rw [scrape_links.linkLoop]
    cases hn : scrape_links.normalize_url (hrefOf a) url with
    | none =>
        rw [ih]
        simp [specProcessedScrape, hn]
    | some n =>
      dsimp only
      by_cases hne : n = []
      · rw [if_pos hne, ih]
        simp [specProcessedScrape, hn, hne]
      · rw [if_neg hne]
        by_cases hf1 : (scope = .internal ∨ scope = .sidebar)
            ∧ scrape_links.is_internal_url n url = false
        · rw [if_pos hf1, ih]
          simp [specProcessedScrape, hn, hne, hf1]
        · rw [if_neg hf1]
          by_cases hf2 : scope = .external ∧ scrape_links.is_internal_url n url = true
          · rw [if_pos hf2, ih]
            simp [specProcessedScrape, hn, hne, hf1, hf2]
          · rw [if_neg hf2]
            by_cases hseen : n ∈ seen
            · rw [if_neg (by simpa using hseen), ih]
              simp [specProcessedScrape, hn, hne, hf1, hf2, hseen]
            · rw [if_pos hseen, ih]
              have hfil : (specProcessedScrape url scope include_text rest).filter
                  (fun p => p.1 ∉ (n :: seen))
                = ((specProcessedScrape url scope include_text rest).filter
                    (fun p => p.1 ∉ seen)).filter (fun p => p.1 ≠ n) := by
                rw [List.filter_filter]
                apply List.filter_congr
                intro m _
                by_cases h1 : m.1 ∈ seen <;> by_cases h2 : m.1 = n <;>
                  simp [h1, h2, List.mem_cons]
              simp only [specProcessedScrape, List.filterMap_cons, hn, if_neg hne,
                if_neg hf1, if_neg hf2]
              rw [List.filter_cons_of_pos (by simpa using hseen),
                specFirstOccurrencesBy_cons]
              simp only [specProcessedScrape] at hfil
              rw [← hfil]
              simp

/-- C6: both extraction loops deduplicate by normalized URL: the emitted list
is exactly the first-occurrence filter of the processed anchor stream (so
each URL appears once, at the position of its first occurrence, with the
display text recorded at that first occurrence), and the emitted URLs are
pairwise distinct. -/
theorem C6_dedup_first_seen :
    (∀ start_url target_origin (anchors : List Node),
        extract_links.linkLoop start_url target_origin [] [] anchors
          = specFirstOccurrencesBy id (specProcessedExtract start_url target_origin anchors)
        ∧ (extract_links.linkLoop start_url target_origin [] [] anchors).Nodup)
  ∧ (∀ url scope include_text (anchors : List Node),
        scrape_links.linkLoop url scope include_text [] [] anchors
          = specFirstOccurrencesBy Prod.fst (specProcessedScrape url scope include_text anchors)
        ∧ ((scrape_links.linkLoop url scope include_text [] [] anchors).map
            Prod.fst).Nodup) := by
  constructor
  · intro start_url target_origin anchors
    have h := linkLoop_spec_x start_url target_origin anchors [] []
    have hfe : (specProcessedExtract start_url target_origin anchors).filter
        (fun n => n ∉ ([] : List Str)) = specProcessedExtract start_url target_origin anchors := by
      simp
    rw [hfe] at h
    simp only [List.nil_append] at h
    refine ⟨h, ?_⟩
    rw [h]
    have := specFirstOccurrencesBy_nodup id (specProcessedExtract start_url target_origin anchors)
    simpa using this
  · intro url scope include_text anchors
    have h := linkLoop_spec_s url scope include_text anchors [] []
    have hfe : (specProcessedScrape url scope include_text anchors).filter
        (fun p => p.1 ∉ ([] : List Str))
        = specProcessedScrape url scope include_text anchors := by
      simp
    rw [hfe] at h
    simp only [List.nil_append] at h
    refine ⟨h, ?_⟩
    rw [h]
    exact specFirstOccurrencesBy_nodup Prod.fst _

/-- C9: every fetch-failure kind, and (for sidebar scope) the absence of a
surviving sidebar candidate, yields exit status 1 with no output-file
operation; any run that performs file operations exited 0 (all file I/O is
after fully successful extraction). -/
theorem C9_failure_no_output :
    (∀ start_url,
        extract_links.extract_sidebar_links start_url .timeout = (1, [])
      ∧ extract_links.extract_sidebar_links start_url .connectionError = (1, [])
      ∧ extract_links.extract_sidebar_links start_url .httpError = (1, [])
      ∧ extract_links.extract_sidebar_links start_url .requestError = (1, []))
  ∧ (∀ start_url soup,
        extract_links.find_sidebar_container soup start_url
            ((urllib.urlparse start_url []).scheme ++ str "://"
              ++ (urllib.urlparse start_url []).netloc) = none →
        extract_links.extract_sidebar_links start_url (.success soup) = (1, []))
  ∧ (∀ start_url fetched,
        (extract_links.extract_sidebar_links start_url fetched).2 ≠ [] →
        (extract_links.extract_sidebar_links start_url fetched).1 = 0)
  ∧ (∀ url scope include_text,
        scrape_links.scrape_links url scope include_text none = (1, []))
  ∧ (∀ url include_text soup,
        scrape_links.find_sidebar_container soup url = none →
        scrape_links.scrape_links url .sidebar include_text (some soup) = (1, []))
  ∧ (∀ url scope include_text fetched,
        (scrape_links.scrape_links url scope include_text fetched).2 ≠ [] →
        (scrape_links.scrape_links url scope include_text fetched).1 = 0) := by
  refine ⟨fun start_url => ⟨rfl, rfl, rfl, rfl⟩, ?_, ?_, fun _ _ _ => rfl, ?_, ?_⟩
  · intro start_url soup h
    simp only [List.append_assoc] at h
    simp [extract_links.extract_sidebar_links, h]
  · intro start_url fetched
    cases fetched with
    | success soup =>
        cases hf : extract_links.find_sidebar_container soup start_url
            ((urllib.urlparse start_url []).scheme ++ str "://"
              ++ (urllib.urlparse start_url []).netloc) with
        | none =>
            simp only [List.append_assoc] at hf
            simp [extract_links.extract_sidebar_links, hf]
        | some sidebar =>
            simp only [List.append_assoc] at hf
            simp [extract_links.extract_sidebar_links, hf]
    | timeout => simp [extract_links.extract_sidebar_links]
    | connectionError => simp [extract_links.extract_sidebar_links]
    | httpError => simp [extract_links.extract_sidebar_links]
    | requestError => simp [extract_links.extract_sidebar_links]
  · intro url include_text soup h
    simp [scrape_links.scrape_links, h]
  · intro url scope include_text fetched
    cases fetched with
    | none => simp [scrape_links.scrape_links]
    | some soup =>
        by_cases hs : scope = scrape_links.Scope.sidebar
        · cases hf : scrape_links.find_sidebar_container soup url with
          | none => simp [scrape_links.scrape_links, hs, hf]
          | some c => simp [scrape_links.scrape_links, hs, hf]
        · simp [scrape_links.scrape_links, hs]

def exEmptyDoc : Node := .elem (str "html") [] [] [.text (str "no nav here")]

/-- Witness for C9: a document with no sidebar candidate exits 1 with no
file operations; the successful scenario run exits 0. -/
theorem C9_failure_no_output_witness :
    (extract_links.extract_sidebar_links exBase (.success exEmptyDoc) = (1, []))
    ∧ (scrape_links.scrape_links exBase .sidebar false (some exEmptyDoc) = (1, []))
    ∧ ((extract_links.extract_sidebar_links exBase (.success exDoc1)).1 = 0)
    ∧ ((scrape_links.scrape_links exBase .all false (some exDoc1)).1 = 0) :=
  ⟨C9_failure_no_output.2.1 exBase exEmptyDoc (by decide),
   C9_failure_no_output.2.2.2.2.1 exBase false exEmptyDoc (by decide),
   C9_failure_no_output.2.2.1 exBase (.success exDoc1) (by decide),
   C9_failure_no_output.2.2.2.2.2 exBase .all false (some exDoc1) (by decide)⟩

/-- C10: origin classification compares the whole network location, host and
port together: URLs on the same host but different ports are classified
external by `is_internal_url`, and `extract_links.normalize_url` rejects
every href whose resolved netloc differs from the target origin's netloc
(hence any same-host different-port link). -/
theorem C10_port_sensitive_origin :
    (∀ (u b host p1 p2 : Str),
        (urllib.urlparse u []).netloc = host ++ ':' :: p1 →
        (urllib.urlparse b []).netloc = host ++ ':' :: p2 →
        p1 ≠ p2 →
        scrape_links.is_internal_url u b = false)
  ∧ (∀ href base target,
        (urllib.urlparse (urllib.urljoin base href) []).netloc
          ≠ (urllib.urlparse target []).netloc →
        extract_links.normalize_url href base target = none)
  ∧ scrape_links.is_internal_url (str "https://example.com:8080/a")
      (str "https://example.com/") = false := by
  refine ⟨?_, ?_, by decide⟩
  · intro u b host p1 p2 h1 h2 hne
    unfold scrape_links.is_internal_url
    rw [h1, h2]
    rw [beq_eq_false_iff_ne]
    intro heq
    exact hne (List.cons.injEq .. ▸ (List.append_cancel_left heq) |>.2)
  · intro href base target h
    unfold extract_links.normalize_url
    by_cases h1 : href = [] ∨ startswithAny href [str "mailto:", str "tel:", str "javascript:"] = true
    · rw [if_pos h1]
    · rw [if_neg h1]
      by_cases h2 : List.headD href ' ' = '#'
      · rw [if_pos h2]
      · rw [if_neg h2]
        dsimp only
        rw [if_pos h]

/-- Witness for C10 at concrete ports 8080 vs 80. -/
theorem C10_port_sensitive_origin_witness :
    scrape_links.is_internal_url (str "https://example.com:8080/a")
        (str "https://example.com:80/") = false
    ∧ extract_links.normalize_url (str "/x") (str "https://example.com:8080/")
        (str "https://example.com") = none :=
  ⟨C10_port_sensitive_origin.1 (str "https://example.com:8080/a")
      (str "https://example.com:80/") (str "example.com") (str "8080") (str "80")
      (by decide) (by decide) (by decide),
   C10_port_sensitive_origin.2.1 (str "/x") (str "https://example.com:8080/")
      (str "https://example.com") (by decide)⟩

/-- C4 counterexample: an href whose resolution has scheme `ftp` (not http or
https) but whose netloc matches the target origin is NOT rejected by
`extract_links.normalize_url`: it is accepted and re-assembled with scheme
https, so the claim fails for extract_links.py. -/
theorem C4_counterexample :
    (urllib.urlparse (urllib.urljoin (str "https://docs.molt.bot/")
        (str "ftp://docs.molt.bot/x")) []).scheme = str "ftp"
    ∧ extract_links.normalize_url (str "ftp://docs.molt.bot/x")
        (str "https://docs.molt.bot/") (str "https://docs.molt.bot")
      = some (str "https://docs.molt.bot/x") := by decide

theorem unparse_scheme_pre {p : urllib.ParseResult} (h : p.scheme ≠ []) :
    (p.scheme ++ [':']) <+: urllib.urlunparse p := by
  unfold urllib.urlunparse urllib.urlunsplit
  dsimp only
  rw [if_pos h]
  have hu : ∀ (u : Str), (p.scheme ++ [':']) <+: p.scheme ++ ':' :: u :=
    fun u => ⟨u, by simp⟩
  split
  · split
    · exact ((hu _).trans (List.prefix_append _ _)).trans (List.prefix_append _ _)
    · exact (hu _).trans (List.prefix_append _ _)
  · split
    · exact (hu _).trans (List.prefix_append _ _)
    · exact hu _

theorem unparse_https_pre (netloc path query : Str) :
    (str "https:") <+: urllib.urlunparse ⟨str "https", netloc, path, [], query, []⟩ := by
  have heq : str "https:" = str "https" ++ [':'] := by decide
  rw [heq]
  exact unparse_scheme_pre
    (p := ⟨str "https", netloc, path, [], query, []⟩) (by simp [str])

/-- C4 amended: `scrape_links.normalize_url` rejects every href whose
resolved scheme is not http or https, but `extract_links.normalize_url`
performs no scheme check at all: beyond the empty/special-prefix/fragment
guards it filters only on the netloc, and everything it accepts is
re-assembled with the scheme forced to https (so a non-http(s) href on the
target host is accepted rather than rejected). -/
theorem C4_scheme_rejection :
    (∀ href base sf,
        (urllib.urlparse (urllib.urljoin base href) []).scheme ∉ [str "http", str "https"] →
        scrape_links.normalize_url href base sf = none)
  ∧ (∀ href base target r, extract_links.normalize_url href base target = some r →
        (str "https:") <+: r) := by
  constructor
  · intro href base sf h
    unfold scrape_links.normalize_url
    by_cases h1 : href = []
        ∨ startswithAny href [str "mailto:", str "tel:", str "javascript:", str "data:"] = true
    · rw [if_pos h1]
    · rw [if_neg h1]
      by_cases h2 : List.headD href ' ' = '#'
      · rw [if_pos h2]
      · rw [if_neg h2]
        dsimp only
        rw [if_pos h]
  · intro href base target r h
    unfold extract_links.normalize_url at h
    by_cases h1 : href = []
        ∨ startswithAny href [str "mailto:", str "tel:", str "javascript:"] = true
    · rw [if_pos h1] at h
      cases h
    · rw [if_neg h1] at h
      by_cases h2 : List.headD href ' ' = '#'
      · rw [if_pos h2] at h
        cases h
      · rw [if_neg h2] at h
        dsimp only at h
        by_cases h3 : (urllib.urlparse (urllib.urljoin base href) []).netloc
            ≠ (urllib.urlparse target []).netloc
        · rw [if_pos h3] at h
          cases h
        · rw [if_neg h3, Option.some.injEq] at h
          rw [← h]
          exact unparse_https_pre _ _ _

/-- Witness for C4: the ftp href is rejected by scrape_links but accepted —
with an https prefix — by extract_links. -/
theorem C4_scheme_rejection_witness :
    scrape_links.normalize_url (str "ftp://docs.molt.bot/x")
        (str "https://docs.molt.bot/") true = none
    ∧ (str "https:") <+: str "https://docs.molt.bot/x" :=
  ⟨C4_scheme_rejection.1 (str "ftp://docs.molt.bot/x") (str "https://docs.molt.bot/") true
      (by decide),
   C4_scheme_rejection.2 (str "ftp://docs.molt.bot/x") (str "https://docs.molt.bot/")
      (str "https://docs.molt.bot") (str "https://docs.molt.bot/x") (by decide)⟩

/-! ## String-level lemmas for the urllib model -/

theorem toLower_idem (c : Char) : c.toLower.toLower = c.toLower := by
  unfold Char.toLower
  dsimp only
  by_cases h : c.toNat ≥ 65 ∧ c.toNat ≤ 90
  · rw [if_pos h]
    have hvalid : Nat.isValidChar (c.toNat + 32) := by
      left
      omega
    have hval : (Char.ofNat (c.toNat + 32)).toNat = c.toNat + 32 := by
      unfold Char.ofNat
      rw [dif_pos hvalid]
      rfl
    rw [if_neg]
    rw [hval]
    omega
  · rw [if_neg h, if_neg h]

theorem pyLower_idem (s : Str) : pyLower (pyLower s) = pyLower s := by
  unfold pyLower
  rw [List.map_map]
  exact List.map_congr_left (fun c _ => toLower_idem c)

theorem schemeChar_clean {c : Char} (h : urllib.schemeChar c = true) :
    urllib.isUnsafe c = false ∧ urllib.isC0OrSpace c = false := by
  have hval : 43 ≤ c.val.toNat := by
    unfold urllib.schemeChar at h
    simp only [Bool.or_eq_true, Char.isAlpha, Char.isUpper, Char.isLower, Char.isDigit,
      decide_eq_true_eq, Bool.and_eq_true, beq_iff_eq] at h
    rcases h with ((((⟨h1, _⟩ | ⟨h1, _⟩) | ⟨h1, _⟩) | rfl) | rfl) | rfl
    · have h2 : (65 : UInt32).toNat ≤ c.val.toNat := h1
      rw [show (65 : UInt32).toNat = 65 from by decide] at h2
      omega
    · have h2 : (97 : UInt32).toNat ≤ c.val.toNat := h1
      rw [show (97 : UInt32).toNat = 97 from by decide] at h2
      omega
    · have h2 : (48 : UInt32).toNat ≤ c.val.toNat := h1
      rw [show (48 : UInt32).toNat = 48 from by decide] at h2
      omega
    · decide
    · decide
    · decide
  constructor
  · have h9 : c ≠ '\t' := fun hh => by subst hh; exact absurd hval (by decide)
    have h13 : c ≠ '\r' := fun hh => by subst hh; exact absurd hval (by decide)
    have h10 : c ≠ '\n' := fun hh => by subst hh; exact absurd hval (by decide)
    simp [urllib.isUnsafe, h9, h13, h10]
  · simp only [urllib.isC0OrSpace, decide_eq_false_iff_not]
    intro hle
    have h2 : c.val.toNat ≤ (32 : UInt32).toNat := hle
    rw [show (32 : UInt32).toNat = 32 from by decide] at h2
    omega

theorem breakOn_eq_none {ch : Char} {l : Str} (h : ch ∉ l) : urllib.breakOn ch l = none := by
  induction l with
  | nil => rfl
  | cons c cs ih =>
    simp only [List.mem_cons, not_or] at h
    have hc : ¬ c = ch := fun hh => h.1 hh.symm
    simp [urllib.breakOn, hc, ih h.2]

theorem breakOn_split {ch : Char} {l a b : Str} (h : urllib.breakOn ch l = some (a, b)) :
    l = a ++ ch :: b ∧ ch ∉ a := by
  induction l generalizing a b with
  | nil => cases h
  | cons c cs ih =>
    by_cases hc : c = ch
    · subst hc
      simp only [urllib.breakOn, if_pos rfl, Option.some.injEq, Prod.mk.injEq] at h
      obtain ⟨rfl, rfl⟩ := h
      exact ⟨rfl, List.not_mem_nil _⟩
    · simp only [urllib.breakOn, if_neg hc, Option.map_eq_some'] at h
      obtain ⟨⟨a', b'⟩, hb, heq⟩ := h
      obtain ⟨rfl, rfl⟩ := Prod.mk.injEq .. ▸ heq
      obtain ⟨hcs, hna⟩ := ih hb
      refine ⟨by rw [hcs]; rfl, ?_⟩
      simp only [List.mem_cons, not_or]
      exact ⟨fun hh => hc hh.symm, hna⟩

theorem breakOn_app {ch : Char} {l₁ l₂ : Str} (h : ch ∉ l₁) :
    urllib.breakOn ch (l₁ ++ ch :: l₂) = some (l₁, l₂) := by
  induction l₁ with
  | nil => simp [urllib.breakOn]
  | cons c cs ih =>
    simp only [List.mem_cons, not_or] at h
    have hc : ¬ c = ch := fun hh => h.1 hh.symm
    simp [urllib.breakOn, hc, ih h.2]

theorem takeWhile_app {p : Char → Bool} {l₁ l₂ : Str} (h1 : l₁.all p = true)
    (h2 : l₂ = [] ∨ p (l₂.headD ' ') = false) : (l₁ ++ l₂).takeWhile p = l₁ := by
  induction l₁ with
  | nil =>
    rcases h2 with rfl | h2
    · rfl
    · cases l₂ with
      | nil => rfl
      | cons c cs => simp_all [List.takeWhile_cons]
  | cons c cs ih =>
    simp only [List.all_cons, Bool.and_eq_true] at h1
    simp [List.takeWhile_cons, h1.1, ih h1.2]

theorem dropWhile_app {p : Char → Bool} {l₁ l₂ : Str} (h1 : l₁.all p = true)
    (h2 : l₂ = [] ∨ p (l₂.headD ' ') = false) : (l₁ ++ l₂).dropWhile p = l₂ := by
  induction l₁ with
  | nil =>
    rcases h2 with rfl | h2
    · rfl
    · cases l₂ with
      | nil => rfl
      | cons c cs => simp_all [List.dropWhile_cons]
  | cons c cs ih =>
    simp only [List.all_cons, Bool.and_eq_true] at h1
    simp [List.dropWhile_cons, h1.1, ih h1.2]

theorem head_dropWhile (p : Char → Bool) (l : Str) :
    l.dropWhile p = [] ∨ p ((l.dropWhile p).headD ' ') = false := by
  induction l with
  | nil => exact Or.inl rfl
  | cons c cs ih =>
    by_cases hc : p c = true
    · simpa [List.dropWhile_cons, hc] using ih
    · simp [List.dropWhile_cons, hc, Bool.eq_false_iff.mpr hc]

theorem rstripSlash_pre (l : Str) : rstripSlash l <+: l := by
  unfold rstripSlash
  have h := List.dropWhile_suffix (l := l.reverse) (p := fun c => c = '/')
  have h2 := h.reverse
  simpa using h2

theorem mem_rstripSlash {c : Char} {l : Str} (h : c ∈ rstripSlash l) : c ∈ l :=
  (rstripSlash_pre l).sublist.mem h

theorem dropWhile_dropWhile (p : Char → Bool) (l : Str) :
    (l.dropWhile p).dropWhile p = l.dropWhile p := by
  rcases head_dropWhile p l with h | h
  · rw [h]; rfl
  · cases hd : l.dropWhile p with
    | nil => rfl
    | cons c cs =>
      rw [hd] at h
      simp only [List.headD_cons] at h
      simp [List.dropWhile_cons, h]

theorem rstripSlash_idem (l : Str) : rstripSlash (rstripSlash l) = rstripSlash l := by
  unfold rstripSlash
  rw [List.reverse_reverse, dropWhile_dropWhile]

theorem rstripSlash_getLast (l : Str) :
    rstripSlash l = [] ∨ (rstripSlash l).getLast? ≠ some '/' := by
  unfold rstripSlash
  rcases head_dropWhile (fun c => c = '/') l.reverse with h | h
  · rw [h]
    exact Or.inl rfl
  · cases hd : l.reverse.dropWhile (fun c => c = '/') with
    | nil => exact Or.inl rfl
    | cons c cs =>
      right
      rw [hd] at h
      simp only [List.headD_cons, decide_eq_false_iff_not] at h
      rw [List.getLast?_reverse]
      simpa using h

theorem rstripSlash_ne_root (l : Str) : rstripSlash l ≠ str "/" := by
  rcases rstripSlash_getLast l with h | h
  · rw [h]; intro hh; cases hh
  · intro hh
    rw [hh] at h
    exact h rfl

theorem rstripSlash_head {l : Str} (h : rstripSlash l ≠ []) :
    (rstripSlash l).headD ' ' = l.headD ' ' := by
  obtain ⟨t, ht⟩ := rstripSlash_pre l
  cases hr : rstripSlash l with
  | nil => exact absurd hr h
  | cons c cs =>
    rw [hr] at ht
    rw [← ht]
    rfl

theorem sanitize_eq_self {l : Str} (h1 : l = [] ∨ urllib.isC0OrSpace (l.headD ' ') = false)
    (h2 : ∀ c ∈ l, urllib.isUnsafe c = false) : urllib.sanitize l = l := by
  unfold urllib.sanitize
  have hd : l.dropWhile urllib.isC0OrSpace = l := by
    rcases h1 with rfl | h1
    · rfl
    · cases l with
      | nil => rfl
      | cons c cs => simp_all [List.dropWhile_cons]
  rw [hd]
  rw [List.filter_eq_self.mpr]
  intro c hc
  simp [h2 c hc]

/-- A scheme string exactly as a successful `urlsplit` scheme recognition
produces it: nonempty, letter-led, scheme characters, lower-case stable. -/
def validLowerScheme (s : Str) : Prop :=
  s ≠ [] ∧ (s.headD ' ').isAlpha = true ∧ s.all urllib.schemeChar = true ∧ pyLower s = s

instance validLowerScheme.dec (s : Str) : Decidable (validLowerScheme s) := by
  unfold validLowerScheme
  infer_instance

theorem toLower_toNat_pos {c : Char} (h : 65 ≤ c.toNat ∧ c.toNat ≤ 90) :
    c.toLower.toNat = c.toNat + 32 := by
  unfold Char.toLower
  dsimp only
  rw [if_pos h]
  unfold Char.ofNat
  rw [dif_pos (by left; omega)]
  rfl

theorem toLower_eq_self {c : Char} (h : ¬(65 ≤ c.toNat ∧ c.toNat ≤ 90)) :
    c.toLower = c := by
  unfold Char.toLower
  dsimp only
  rw [if_neg h]

theorem isAlpha_iff_toNat (c : Char) :
    c.isAlpha = true ↔ (65 ≤ c.toNat ∧ c.toNat ≤ 90) ∨ (97 ≤ c.toNat ∧ c.toNat ≤ 122) := by
  simp only [Char.isAlpha, Char.isUpper, Char.isLower, Bool.or_eq_true, Bool.and_eq_true,
    decide_eq_true_eq]
  constructor
  · rintro (⟨h1, h2⟩ | ⟨h1, h2⟩)
    · left
      have g1 : (65 : UInt32).toNat ≤ c.val.toNat := h1
      have g2 : c.val.toNat ≤ (90 : UInt32).toNat := h2
      rw [show (65 : UInt32).toNat = 65 from by decide] at g1
      rw [show (90 : UInt32).toNat = 90 from by decide] at g2
      exact ⟨g1, g2⟩
    · right
      have g1 : (97 : UInt32).toNat ≤ c.val.toNat := h1
      have g2 : c.val.toNat ≤ (122 : UInt32).toNat := h2
      rw [show (97 : UInt32).toNat = 97 from by decide] at g1
      rw [show (122 : UInt32).toNat = 122 from by decide] at g2
      exact ⟨g1, g2⟩
  · rintro (⟨h1, h2⟩ | ⟨h1, h2⟩)
    · left
      constructor
      · show (65 : UInt32).toNat ≤ c.val.toNat
        rw [show (65 : UInt32).toNat = 65 from by decide]
        exact h1
      · show c.val.toNat ≤ (90 : UInt32).toNat
        rw [show (90 : UInt32).toNat = 90 from by decide]
        exact h2
    · right
      constructor
      · show (97 : UInt32).toNat ≤ c.val.toNat
        rw [show (97 : UInt32).toNat = 97 from by decide]
        exact h1
      · show c.val.toNat ≤ (122 : UInt32).toNat
        rw [show (122 : UInt32).toNat = 122 from by decide]
        exact h2

theorem toLower_isAlpha {c : Char} (h : c.isAlpha = true) : c.toLower.isAlpha = true := by
  by_cases hu : 65 ≤ c.toNat ∧ c.toNat ≤ 90
  · rw [isAlpha_iff_toNat]
    right
    rw [toLower_toNat_pos hu]
    omega
  · rw [toLower_eq_self hu]
    exact h

theorem isDigit_iff_toNat (c : Char) :
    c.isDigit = true ↔ 48 ≤ c.toNat ∧ c.toNat ≤ 57 := by
  simp only [Char.isDigit, Bool.and_eq_true, decide_eq_true_eq]
  constructor
  · rintro ⟨h1, h2⟩
    have g1 : (48 : UInt32).toNat ≤ c.val.toNat := h1
    have g2 : c.val.toNat ≤ (57 : UInt32).toNat := h2
    rw [show (48 : UInt32).toNat = 48 from by decide] at g1
    rw [show (57 : UInt32).toNat = 57 from by decide] at g2
    exact ⟨g1, g2⟩
  · rintro ⟨h1, h2⟩
    constructor
    · show (48 : UInt32).toNat ≤ c.val.toNat
      rw [show (48 : UInt32).toNat = 48 from by decide]
      exact h1
    · show c.val.toNat ≤ (57 : UInt32).toNat
      rw [show (57 : UInt32).toNat = 57 from by decide]
      exact h2

theorem toLower_schemeChar {c : Char} (h : urllib.schemeChar c = true) :
    urllib.schemeChar c.toLower = true := by
  by_cases hu : 65 ≤ c.toNat ∧ c.toNat ≤ 90
  · have : c.toLower.isAlpha = true := by
      rw [isAlpha_iff_toNat]
      right
      rw [toLower_toNat_pos hu]
      omega
    simp [urllib.schemeChar, this]
  · rw [toLower_eq_self hu]
    exact h

theorem scheme_no_colon {s : Str} (hall : s.all urllib.schemeChar = true) : ':' ∉ s := by
  intro hmem
  have := List.all_eq_true.mp hall _ hmem
  simp [urllib.schemeChar] at this

theorem splitScheme_of_valid {s : Str} (hs : validLowerScheme s) (rest dflt : Str) :
    urllib.splitScheme dflt (s ++ ':' :: rest) = (s, rest) := by
  obtain ⟨hne, hal, hall, hlow⟩ := hs
  unfold urllib.splitScheme
  rw [breakOn_app (scheme_no_colon hall)]
  dsimp only
  rw [if_pos ⟨hne, hal, hall⟩]
  rw [hlow]

theorem splitScheme_no (dflt : Str) {url : Str}
    (h : url = [] ∨ (url.headD ' ').isAlpha = false) :
    urllib.splitScheme dflt url = (dflt, url) := by
  unfold urllib.splitScheme
  cases hbo : urllib.breakOn ':' url with
  | none => rfl
  | some pr =>
    obtain ⟨pre, rest⟩ := pr
    obtain ⟨heq, hnm⟩ := breakOn_split hbo
    rcases h with rfl | h
    · simp at heq
    · dsimp only
      rw [if_neg]
      rintro ⟨hne, hal, -⟩
      cases pre with
      | nil => exact hne rfl
      | cons c cs =>
        rw [heq] at h
        simp only [List.cons_append, List.headD_cons] at h hal
        rw [hal] at h
        cases h

theorem splitScheme_inv (dflt url : Str) :
    ((urllib.splitScheme dflt url).1 = dflt ∧ (urllib.splitScheme dflt url).2 = url)
    ∨ (validLowerScheme (urllib.splitScheme dflt url).1
        ∧ ∀ c ∈ (urllib.splitScheme dflt url).2, c ∈ url) := by
  unfold urllib.splitScheme
  cases hbo : urllib.breakOn ':' url with
  | none => exact Or.inl ⟨rfl, rfl⟩
  | some pr =>
    obtain ⟨pre, rest⟩ := pr
    dsimp only
    by_cases hc : pre ≠ [] ∧ (pre.headD ' ').isAlpha = true ∧ pre.all urllib.schemeChar = true
    · rw [if_pos hc]
      right
      obtain ⟨heq, -⟩ := breakOn_split hbo
      obtain ⟨hne, hal, hall⟩ := hc
      refine ⟨⟨?_, ?_, ?_, pyLower_idem pre⟩, fun c hc' => by rw [heq]; simp [hc']⟩
      · intro hh
        exact hne (List.map_eq_nil_iff.mp hh)
      · cases pre with
        | nil => exact absurd rfl hne
        | cons c cs =>
          simpa [pyLower] using toLower_isAlpha (by simpa using hal)
      · simp only [pyLower, List.all_map]
        refine List.all_eq_true.mpr (fun c hc' => ?_)
        exact toLower_schemeChar (List.all_eq_true.mp hall _ hc')
    · rw [if_neg hc]
      exact Or.inl ⟨rfl, rfl⟩

theorem breakOn_none_not_mem {ch : Char} {l : Str} (h : urllib.breakOn ch l = none) :
    ch ∉ l := by
  induction l with
  | nil => exact List.not_mem_nil _
  | cons c cs ih =>
    by_cases hc : c = ch
    · subst hc
      simp [urllib.breakOn] at h
    · simp only [urllib.breakOn, if_neg hc, Option.map_eq_none'] at h
      simp only [List.mem_cons, not_or]
      exact ⟨fun hh => hc hh.symm, ih h⟩

theorem takeWhile_all (p : Char → Bool) (l : Str) : (l.takeWhile p).all p = true := by
  induction l with
  | nil => rfl
  | cons c cs ih =>
    by_cases hc : p c = true
    · simpa [List.takeWhile_cons, hc] using ih
    · simp [List.takeWhile_cons, hc]

theorem take_two_shape {u1 : Str} (h : u1.take 2 = ['/', '/']) :
    u1 = '/' :: '/' :: u1.drop 2 := by
  cases u1 with
  | nil => cases h
  | cons a t =>
    cases t with
    | nil => cases h
    | cons b t2 =>
      simp only [List.take, List.cons.injEq] at h
      obtain ⟨rfl, rfl, -⟩ := h
      rfl

theorem splitNetloc_app {n tail : Str} (hn : n.all urllib.notDelim = true)
    (ht : tail = [] ∨ urllib.notDelim (tail.headD ' ') = false) :
    urllib.splitNetloc ('/' :: '/' :: (n ++ tail)) = (n, tail) := by
  unfold urllib.splitNetloc
  rw [if_pos (show List.take 2 ('/' :: '/' :: (n ++ tail)) = ['/', '/'] from rfl)]
  dsimp only [List.drop]
  rw [takeWhile_app hn ht, dropWhile_app hn ht]

theorem splitNetloc_no {u1 : Str} (h : u1.take 2 ≠ ['/', '/']) :
    urllib.splitNetloc u1 = ([], u1) := by
  unfold urllib.splitNetloc
  rw [if_neg h]

theorem splitNetloc_inv (u1 : Str) :
    ((urllib.splitNetloc u1).1 = [] ∧ (urllib.splitNetloc u1).2 = u1)
    ∨ (u1 = '/' :: '/' :: ((urllib.splitNetloc u1).1 ++ (urllib.splitNetloc u1).2)
       ∧ (urllib.splitNetloc u1).1.all urllib.notDelim = true
       ∧ ((urllib.splitNetloc u1).2 = []
          ∨ urllib.notDelim ((urllib.splitNetloc u1).2.headD ' ') = false)) := by
  unfold urllib.splitNetloc
  by_cases h : u1.take 2 = ['/', '/']
  · rw [if_pos h]
    right
    refine ⟨?_, takeWhile_all _ _, head_dropWhile _ _⟩
    conv_lhs => rw [take_two_shape h]
    rw [List.takeWhile_append_dropWhile]
  · rw [if_neg h]
    exact Or.inl ⟨rfl, rfl⟩

theorem splitFragment_not_mem {u2 : Str} (h : '#' ∉ u2) :
    urllib.splitFragment u2 = (u2, []) := by
  unfold urllib.splitFragment
  rw [breakOn_eq_none h]

theorem splitFragment_app {a b : Str} (h : '#' ∉ a) :
    urllib.splitFragment (a ++ '#' :: b) = (a, b) := by
  unfold urllib.splitFragment
  rw [breakOn_app h]

theorem splitFragment_inv (u2 : Str) :
    '#' ∉ (urllib.splitFragment u2).1
    ∧ (∀ c ∈ (urllib.splitFragment u2).1, c ∈ u2)
    ∧ (∀ c ∈ (urllib.splitFragment u2).2, c ∈ u2)
    ∧ ((urllib.splitFragment u2).1 = [] ∨
        (urllib.splitFragment u2).1.headD ' ' = u2.headD ' ') := by
  unfold urllib.splitFragment
  cases hbo : urllib.breakOn '#' u2 with
  | none =>
    dsimp only
    exact ⟨breakOn_none_not_mem hbo, fun c hc => hc, fun c hc => (by cases hc),
      Or.inr rfl⟩
  | some pr =>
    obtain ⟨a, b⟩ := pr
    dsimp only
    obtain ⟨heq, hnm⟩ := breakOn_split hbo
    subst heq
    refine ⟨hnm, fun c hc => by simp [hc], fun c hc => by simp [hc], ?_⟩
    cases a with
    | nil => exact Or.inl rfl
    | cons c cs => exact Or.inr rfl

theorem splitQuery_not_mem {u3 : Str} (h : '?' ∉ u3) :
    urllib.splitQuery u3 = (u3, []) := by
  unfold urllib.splitQuery
  rw [breakOn_eq_none h]

theorem splitQuery_app {a b : Str} (h : '?' ∉ a) :
    urllib.splitQuery (a ++ '?' :: b) = (a, b) := by
  unfold urllib.splitQuery
  rw [breakOn_app h]

theorem splitQuery_inv (u3 : Str) :
    '?' ∉ (urllib.splitQuery u3).1
    ∧ (∀ c ∈ (urllib.splitQuery u3).1, c ∈ u3)
    ∧ (∀ c ∈ (urllib.splitQuery u3).2, c ∈ u3)
    ∧ ((urllib.splitQuery u3).1 = [] ∨
        (urllib.splitQuery u3).1.headD ' ' = u3.headD ' ') := by
  unfold urllib.splitQuery
  cases hbo : urllib.breakOn '?' u3 with
  | none =>
    dsimp only
    exact ⟨breakOn_none_not_mem hbo, fun c hc => hc, fun c hc => (by cases hc),
      Or.inr rfl⟩
  | some pr =>
    obtain ⟨a, b⟩ := pr
    dsimp only
    obtain ⟨heq, hnm⟩ := breakOn_split hbo
    subst heq
    refine ⟨hnm, fun c hc => by simp [hc], fun c hc => by simp [hc], ?_⟩
    cases a with
    | nil => exact Or.inl rfl
    | cons c cs => exact Or.inr rfl

theorem alpha_not_c0 {c : Char} (h : c.isAlpha = true) : urllib.isC0OrSpace c = false := by
  rcases (isAlpha_iff_toNat c).mp h with ⟨h1, -⟩ | ⟨h1, -⟩ <;>
  · simp only [urllib.isC0OrSpace, decide_eq_false_iff_not]
    intro hle
    have h2 : c.val.toNat ≤ (32 : UInt32).toNat := hle
    rw [show (32 : UInt32).toNat = 32 from by decide] at h2
    have h3 : c.toNat = c.val.toNat := rfl
    omega

theorem scheme_clean_all {s : Str} (hs : validLowerScheme s) :
    s.all (fun c => !urllib.isUnsafe c) = true := by
  refine List.all_eq_true.mpr (fun c hc => ?_)
  have := (schemeChar_clean (List.all_eq_true.mp hs.2.2.1 _ hc)).1
  simp [this]

theorem sanitize_eq_self' {l : Str} (h1 : l = [] ∨ urllib.isC0OrSpace (l.headD ' ') = false)
    (h2 : l.all (fun c => !urllib.isUnsafe c) = true) : urllib.sanitize l = l := by
  refine sanitize_eq_self h1 (fun c hc => ?_)
  have := List.all_eq_true.mp h2 _ hc
  simpa using this

/-- The string `urlunparse` builds from fragment-free, params-free components
whose path is empty or absolute. -/
theorem unparse_eq (s n p q : Str) (hp : p = [] ∨ p.headD ' ' = '/') :
    urllib.urlunparse ⟨s, n, p, [], q, []⟩
      = (if n ≠ [] ∨ (s ≠ [] ∧ s ∈ urllib.uses_netloc ∧ p.take 2 ≠ ['/', '/'])
         then (if s ≠ [] then s ++ ':' :: ('/' :: '/' :: (n ++ p)) else '/' :: '/' :: (n ++ p))
         else (if s ≠ [] then s ++ ':' :: p else p))
        ++ (if q ≠ [] then '?' :: q else []) := by
  unfold urllib.urlunparse urllib.urlunsplit
  dsimp only
  have hfalse : (([] : Str) ≠ []) = False := by simp
  simp only [hfalse, if_false]
  have hinner : (if p ≠ [] ∧ p.headD '/' ≠ '/' then '/' :: p else p) = p := by
    rcases hp with rfl | hp
    · rfl
    · rw [if_neg]
      rintro ⟨hne, hh⟩
      cases p with
      | nil => exact hne rfl
      | cons c cs =>
        simp only [List.headD_cons] at hp hh
        exact hh hp
  simp only [hinner]
  by_cases hc : n ≠ [] ∨ (s ≠ [] ∧ s ∈ urllib.uses_netloc ∧ p.take 2 ≠ ['/', '/']) <;>
    by_cases hs : s ≠ [] <;> by_cases hq : q ≠ [] <;>
      (try simp only [if_pos hc]) <;> (try simp only [if_neg hc]) <;>
      (try simp only [if_pos hs]) <;> (try simp only [if_neg hs]) <;>
      (try simp only [if_pos hq]) <;> (try simp only [if_neg hq]) <;>
      simp

theorem take2_pqp {p q : Str} (hp : p = [] ∨ p.headD ' ' = '/')
    (h4 : p.take 2 ≠ ['/', '/']) :
    (p ++ (if q ≠ [] then '?' :: q else [])).take 2 ≠ ['/', '/'] := by
  cases p with
  | nil =>
    by_cases hq : q ≠ []
    · rw [if_pos hq]
      intro hh
      simp only [List.nil_append] at hh
      cases q with
      | nil => cases hh
      | cons c cs =>
        simp only [List.take, List.cons.injEq] at hh
        cases hh.1
    · rw [if_neg hq]
      intro hh
      cases hh
  | cons a t =>
    cases t with
    | nil =>
      by_cases hq : q ≠ []
      · rw [if_pos hq]
        intro hh
        simp only [List.singleton_append, List.take, List.cons.injEq] at hh
        cases hh.2.1
      · rw [if_neg hq]
        intro hh
        cases hh
    | cons b t2 =>
      intro hh
      simp only [List.cons_append, List.take, List.cons.injEq] at hh
      exact h4 (by simp [List.take, hh.1, hh.2.1])

theorem tail_head_fact {p q : Str} (hp : p = [] ∨ p.headD ' ' = '/') :
    (p ++ (if q ≠ [] then '?' :: q else [])) = []
    ∨ urllib.notDelim ((p ++ (if q ≠ [] then '?' :: q else [])).headD ' ') = false := by
  cases p with
  | nil =>
    by_cases hq : q ≠ []
    · rw [if_pos hq]
      right
      rfl
    · rw [if_neg hq]
      exact Or.inl rfl
  | cons a t =>
    right
    rcases hp with hp | hp
    · cases hp
    · simp only [List.headD_cons] at hp
      subst hp
      rfl

theorem tail_not_alpha {p q : Str} (hp : p = [] ∨ p.headD ' ' = '/') :
    (p ++ (if q ≠ [] then '?' :: q else [])) = []
    ∨ ((p ++ (if q ≠ [] then '?' :: q else [])).headD ' ').isAlpha = false := by
  cases p with
  | nil =>
    by_cases hq : q ≠ []
    · rw [if_pos hq]
      right
      rfl
    · rw [if_neg hq]
      exact Or.inl rfl
  | cons a t =>
    right
    rcases hp with hp | hp
    · cases hp
    · simp only [List.headD_cons] at hp
      subst hp
      rfl

theorem hash_not_tail {p q : Str} (hpf : '#' ∉ p) (hqf : '#' ∉ q) :
    '#' ∉ (p ++ (if q ≠ [] then '?' :: q else [])) := by
  intro hmem
  rcases List.mem_append.mp hmem with h | h
  · exact hpf h
  · by_cases hq : q ≠ []
    · rw [if_pos hq] at h
      rcases List.mem_cons.mp h with h | h
      · cases h
      · exact hqf h
    · rw [if_neg hq] at h
      cases h

theorem tail_clean {p q : Str} (hpc : p.all (fun c => !urllib.isUnsafe c) = true)
    (hqc : q.all (fun c => !urllib.isUnsafe c) = true) :
    (p ++ (if q ≠ [] then '?' :: q else [])).all (fun c => !urllib.isUnsafe c) = true := by
  rw [List.all_append]
  simp only [hpc, Bool.true_and]
  by_cases hq : q ≠ []
  · rw [if_pos hq]
    simp [hqc]
    decide
  · rw [if_neg hq]
    rfl

theorem splitFQ_tail {p q : Str} (hpq : '?' ∉ p) (hpf : '#' ∉ p) (hqf : '#' ∉ q) :
    urllib.splitFragment (p ++ (if q ≠ [] then '?' :: q else [])) =
      (p ++ (if q ≠ [] then '?' :: q else []), [])
    ∧ urllib.splitQuery (p ++ (if q ≠ [] then '?' :: q else [])) = (p, q) := by
  refine ⟨splitFragment_not_mem (hash_not_tail hpf hqf), ?_⟩
  by_cases hq : q ≠ []
  · rw [if_pos hq]
    exact splitQuery_app hpq
  · rw [if_neg hq]
    rw [List.append_nil]
    rw [splitQuery_not_mem hpq]
    simp at hq
    rw [hq]

theorem slash_not_c0 : urllib.isC0OrSpace '/' = false := by decide

theorem slash_not_alpha : ('/' : Char).isAlpha = false := by decide

/-- `urlsplit` recovers the components `urlunparse` assembled, for
fragment-free, params-free components with clean characters and an empty or
absolute path. -/
theorem urlsplit_unparse {s n p q : Str} (d : Str)
    (hsd : (s = [] ∧ urllib.sanitizeScheme d = []) ∨ validLowerScheme s)
    (hn : n.all urllib.notDelim = true)
    (hnc : n.all (fun c => !urllib.isUnsafe c) = true)
    (hp : p = [] ∨ p.headD ' ' = '/')
    (hpq : '?' ∉ p) (hpf : '#' ∉ p)
    (hpc : p.all (fun c => !urllib.isUnsafe c) = true)
    (hqf : '#' ∉ q)
    (hqc : q.all (fun c => !urllib.isUnsafe c) = true)
    (h4 : n = [] → p.take 2 ≠ ['/', '/']) :
    urllib.urlsplit (urllib.urlunparse ⟨s, n, p, [], q, []⟩) d = ⟨s, n, p, q, []⟩ := by
  have hqpclean : (if q ≠ [] then '?' :: q else []).all (fun c => !urllib.isUnsafe c) = true := by
    by_cases hq : q ≠ []
    · rw [if_pos hq]
      simp [hqc]
      decide
    · rw [if_neg hq]
      rfl
  have htailclean := tail_clean hpc hqc
  have hfq := splitFQ_tail hpq hpf hqf
  rw [unparse_eq s n p q hp]
  by_cases hC : n ≠ [] ∨ (s ≠ [] ∧ s ∈ urllib.uses_netloc ∧ p.take 2 ≠ ['/', '/'])
  · rw [if_pos hC]
    by_cases hs : s ≠ []
    · have hvs : validLowerScheme s := by
        rcases hsd with ⟨rfl, -⟩ | hv
        · exact absurd rfl hs
        · exact hv
      rw [if_pos hs]
      unfold urllib.urlsplit
      dsimp only
      have hshape : (s ++ ':' :: ('/' :: '/' :: (n ++ p)))
            ++ (if q ≠ [] then '?' :: q else [])
          = s ++ ':' :: ('/' :: '/' :: (n ++ (p ++ (if q ≠ [] then '?' :: q else [])))) := by
        simp
      rw [hshape]
      rw [sanitize_eq_self' ?hh ?hc]
      case hh =>
        right
        cases s with
        | nil => exact absurd rfl hs
        | cons c cs =>
          simp only [List.cons_append, List.headD_cons]
          exact alpha_not_c0 (by simpa using hvs.2.1)
      case hc =>
        simp only [List.all_append, List.all_cons, Bool.and_eq_true]
        repeat' apply And.intro
        all_goals first
          | decide
          | exact scheme_clean_all hvs
          | exact hnc
          | exact hpc
          | exact hqpclean
      rw [splitScheme_of_valid hvs]
      dsimp only
      rw [splitNetloc_app hn (tail_head_fact hp)]
      dsimp only
      rw [hfq.1]
      dsimp only
      rw [hfq.2]
    · rw [if_neg hs]
      obtain ⟨rfl, hd⟩ : s = [] ∧ urllib.sanitizeScheme d = [] := by
        rcases hsd with h | hv
        · exact h
        · exact absurd hv.1 (by simpa using hs)
      have hn' : n ≠ [] := by
        rcases hC with h | ⟨h, -⟩
        · exact h
        · exact absurd rfl h
      unfold urllib.urlsplit
      dsimp only
      have hshape : ('/' :: '/' :: (n ++ p)) ++ (if q ≠ [] then '?' :: q else [])
          = '/' :: '/' :: (n ++ (p ++ (if q ≠ [] then '?' :: q else []))) := by
        simp
      rw [hshape]
      rw [sanitize_eq_self' ?hh ?hc]
      case hh => exact Or.inr slash_not_c0
      case hc =>
        simp only [List.all_append, List.all_cons, Bool.and_eq_true]
        repeat' apply And.intro
        all_goals first
          | decide
          | exact hnc
          | exact hpc
          | exact hqpclean
      rw [splitScheme_no _ (Or.inr (show (List.headD
          ('/' :: '/' :: (n ++ (p ++ (if q ≠ [] then '?' :: q else [])))) ' ').isAlpha
            = false from slash_not_alpha))]
      rw [hd]
      dsimp only
      rw [splitNetloc_app hn (tail_head_fact hp)]
      dsimp only
      rw [hfq.1]
      dsimp only
      rw [hfq.2]
  · rw [if_neg hC]
    have hn0 : n = [] := by
      by_contra hh
      exact hC (Or.inl hh)
    subst hn0
    have htake := take2_pqp (q := q) hp (h4 rfl)
    by_cases hs : s ≠ []
    · have hvs : validLowerScheme s := by
        rcases hsd with ⟨rfl, -⟩ | hv
        · exact absurd rfl hs
        · exact hv
      rw [if_pos hs]
      unfold urllib.urlsplit
      dsimp only
      have hshape : (s ++ ':' :: p) ++ (if q ≠ [] then '?' :: q else [])
          = s ++ ':' :: (p ++ (if q ≠ [] then '?' :: q else [])) := by
        simp
      rw [hshape]
      rw [sanitize_eq_self' ?hh ?hc]
      case hh =>
        right
        cases s with
        | nil => exact absurd rfl hs
        | cons c cs =>
          simp only [List.cons_append, List.headD_cons]
          exact alpha_not_c0 (by simpa using hvs.2.1)
      case hc =>
        simp only [List.all_append, List.all_cons, Bool.and_eq_true]
        repeat' apply And.intro
        all_goals first
          | decide
          | exact scheme_clean_all hvs
          | exact hpc
          | exact hqpclean
      rw [splitScheme_of_valid hvs]
      dsimp only
      rw [splitNetloc_no htake]
      dsimp only
      rw [hfq.1]
      dsimp only
      rw [hfq.2]
    · rw [if_neg hs]
      obtain ⟨rfl, hd⟩ : s = [] ∧ urllib.sanitizeScheme d = [] := by
        rcases hsd with h | hv
        · exact h
        · exact absurd hv.1 (by simpa using hs)
      unfold urllib.urlsplit
      dsimp only
      rw [sanitize_eq_self' ?hh htailclean]
      case hh =>
        rcases tail_head_fact (q := q) hp with h2 | h2
        · exact Or.inl h2
        · by_cases htl : (p ++ (if q ≠ [] then '?' :: q else [])) = []
          · exact Or.inl htl
          · right
            revert h2
            unfold urllib.notDelim
            intro h2
            simp only [Bool.not_eq_false', Bool.or_eq_true, decide_eq_true_eq] at h2
            rcases h2 with (h2 | h2) | h2
            · rw [h2]
              decide
            · rw [h2]
              decide
            · exfalso
              cases hex : (p ++ (if q ≠ [] then '?' :: q else [])) with
              | nil => exact htl hex
              | cons c cs =>
                rw [hex] at h2
                simp only [List.headD_cons] at h2
                subst h2
                exact hash_not_tail hpf hqf (by rw [hex]; exact List.mem_cons_self _ _)
      rw [splitScheme_no _ (tail_not_alpha hp)]
      rw [hd]
      dsimp only
      rw [splitNetloc_no htake]
      dsimp only
      rw [hfq.1]
      dsimp only
      rw [hfq.2]

/-- Full round trip through `urlparse`, additionally needing a
semicolon-free path so the params split stays inert. -/
theorem parse_unparse {s n p q : Str} (d : Str)
    (hsd : (s = [] ∧ urllib.sanitizeScheme d = []) ∨ validLowerScheme s)
    (hn : n.all urllib.notDelim = true)
    (hnc : n.all (fun c => !urllib.isUnsafe c) = true)
    (hp : p = [] ∨ p.headD ' ' = '/')
    (hpq : '?' ∉ p) (hpf : '#' ∉ p) (hpsemi : ';' ∉ p)
    (hpc : p.all (fun c => !urllib.isUnsafe c) = true)
    (hqf : '#' ∉ q)
    (hqc : q.all (fun c => !urllib.isUnsafe c) = true)
    (h4 : n = [] → p.take 2 ≠ ['/', '/']) :
    urllib.urlparse (urllib.urlunparse ⟨s, n, p, [], q, []⟩) d = ⟨s, n, p, [], q, []⟩ := by
  unfold urllib.urlparse
  rw [urlsplit_unparse d hsd hn hnc hp hpq hpf hpc hqf hqc h4]
  dsimp only
  rw [if_neg]
  rintro ⟨-, hmem⟩
  exact hpsemi hmem

theorem sanitize_clean (u : Str) :
    (urllib.sanitize u).all (fun c => !urllib.isUnsafe c) = true := by
  refine List.all_eq_true.mpr (fun c hc => ?_)
  have := List.of_mem_filter hc
  simpa using this

theorem splitLastSlash_some {l a b : Str} (h : urllib.splitLastSlash l = some (a, b)) :
    l = a ++ '/' :: b := by
  induction l generalizing a b with
  | nil => cases h
  | cons c cs ih =>
    simp only [urllib.splitLastSlash] at h
    cases hs : urllib.splitLastSlash cs with
    | some pr =>
      obtain ⟨a', b'⟩ := pr
      rw [hs] at h
      simp only [Option.some.injEq, Prod.mk.injEq] at h
      obtain ⟨rfl, rfl⟩ := h
      have := ih hs
      rw [List.cons_append, ← this]
    | none =>
      rw [hs] at h
      dsimp only at h
      by_cases hc : c = '/'
      · rw [if_pos hc] at h
        simp only [Option.some.injEq, Prod.mk.injEq] at h
        obtain ⟨rfl, rfl⟩ := h
        rw [hc]
        rfl
      · rw [if_neg hc] at h
        cases h

theorem dropLast_head (l : Str) :
    l.dropLast = [] ∨ l.dropLast.headD ' ' = l.headD ' ' := by
  cases l with
  | nil => exact Or.inl rfl
  | cons c cs =>
    cases cs with
    | nil => exact Or.inl rfl
    | cons d ds => exact Or.inr rfl

theorem splitparams_mem {path : Str} :
    ∀ c ∈ (urllib.splitparams path).1, c ∈ path := by
  unfold urllib.splitparams
  cases hls : urllib.splitLastSlash path with
  | some pr =>
    obtain ⟨a, b⟩ := pr
    dsimp only
    have hpath := splitLastSlash_some hls
    cases hbo : urllib.breakOn ';' b with
    | none => exact fun c hc => hc
    | some xy =>
      obtain ⟨x, y⟩ := xy
      obtain ⟨hb, -⟩ := breakOn_split hbo
      dsimp only
      intro c hc
      rw [hpath, hb]
      rcases List.mem_append.mp hc with h | h
      · exact List.mem_append.mpr (Or.inl h)
      · rcases List.mem_cons.mp h with rfl | h
        · simp
        · simp [h]
  | none =>
    dsimp only
    cases hbo : urllib.breakOn ';' path with
    | none =>
      dsimp only
      exact fun c hc => (List.dropLast_sublist path).mem hc
    | some xy =>
      obtain ⟨x, y⟩ := xy
      obtain ⟨hb, -⟩ := breakOn_split hbo
      dsimp only
      intro c hc
      rw [hb]
      exact List.mem_append.mpr (Or.inl hc)

theorem splitparams_head {path : Str} :
    (urllib.splitparams path).1 = []
    ∨ (urllib.splitparams path).1.headD ' ' = path.headD ' ' := by
  unfold urllib.splitparams
  cases hls : urllib.splitLastSlash path with
  | some pr =>
    obtain ⟨a, b⟩ := pr
    dsimp only
    have hpath := splitLastSlash_some hls
    cases hbo : urllib.breakOn ';' b with
    | none => exact Or.inr rfl
    | some xy =>
      obtain ⟨x, y⟩ := xy
      dsimp only
      right
      rw [hpath]
      cases a with
      | nil => rfl
      | cons c cs => rfl
  | none =>
    dsimp only
    cases hbo : urllib.breakOn ';' path with
    | none =>
      dsimp only
      exact dropLast_head path
    | some xy =>
      obtain ⟨x, y⟩ := xy
      obtain ⟨hb, -⟩ := breakOn_split hbo
      dsimp only
      rcases (show x = [] ∨ x.headD ' ' = path.headD ' ' by
        cases x with
        | nil => exact Or.inl rfl
        | cons c cs => right; rw [hb]; rfl) with h | h
      · exact Or.inl h
      · exact Or.inr h

theorem urlsplit_inv (u d : Str) :
    (urllib.urlsplit u d).netloc.all urllib.notDelim = true
    ∧ (urllib.urlsplit u d).netloc.all (fun c => !urllib.isUnsafe c) = true
    ∧ '?' ∉ (urllib.urlsplit u d).path
    ∧ '#' ∉ (urllib.urlsplit u d).path
    ∧ (urllib.urlsplit u d).path.all (fun c => !urllib.isUnsafe c) = true
    ∧ '#' ∉ (urllib.urlsplit u d).query
    ∧ (urllib.urlsplit u d).query.all (fun c => !urllib.isUnsafe c) = true
    ∧ ((urllib.urlsplit u d).netloc ≠ [] →
        (urllib.urlsplit u d).path = [] ∨ (urllib.urlsplit u d).path.headD ' ' = '/') := by
  have hclean := sanitize_clean u
  have hm1 : ∀ c ∈ (urllib.splitScheme (urllib.sanitizeScheme d) (urllib.sanitize u)).2,
      c ∈ urllib.sanitize u := by
    rcases splitScheme_inv (urllib.sanitizeScheme d) (urllib.sanitize u) with ⟨-, h2⟩ | ⟨-, h2⟩
    · exact fun c hc => h2 ▸ hc
    · exact h2
  set p1 := urllib.splitScheme (urllib.sanitizeScheme d) (urllib.sanitize u) with hp1
  set p2 := urllib.splitNetloc p1.2 with hp2
  set p3 := urllib.splitFragment p2.2 with hp3
  set p4 := urllib.splitQuery p3.1 with hp4
  have hres : urllib.urlsplit u d = ⟨p1.1, p2.1, p4.1, p4.2, p3.2⟩ := rfl
  have hnet := splitNetloc_inv p1.2
  have hfrag := splitFragment_inv p2.2
  have hque := splitQuery_inv p3.1
  rw [← hp2] at hnet
  rw [← hp3] at hfrag
  rw [← hp4] at hque
  have hm2 : ∀ c ∈ p2.2, c ∈ urllib.sanitize u := by
    rcases hnet with ⟨-, h2⟩ | ⟨heq, -, -⟩
    · exact fun c hc => hm1 c (h2 ▸ hc)
    · intro c hc
      refine hm1 c ?_
      rw [heq]
      simp [hc]
  have hmnet : ∀ c ∈ p2.1, c ∈ urllib.sanitize u := by
    rcases hnet with ⟨h1, -⟩ | ⟨heq, -, -⟩
    · intro c hc
      rw [h1] at hc
      cases hc
    · intro c hc
      refine hm1 c ?_
      rw [heq]
      simp [hc]
  have hmpath : ∀ c ∈ p4.1, c ∈ urllib.sanitize u :=
    fun c hc => hm2 c (hfrag.2.1 c (hque.2.1 c hc))
  have hmq : ∀ c ∈ p4.2, c ∈ urllib.sanitize u :=
    fun c hc => hm2 c (hfrag.2.1 c (hque.2.2.1 c hc))
  have hcof : ∀ {l : Str}, (∀ c ∈ l, c ∈ urllib.sanitize u) →
      l.all (fun c => !urllib.isUnsafe c) = true := by
    intro l hl
    refine List.all_eq_true.mpr (fun c hc => List.all_eq_true.mp hclean _ (hl c hc))
  rw [hres]
  refine ⟨?_, hcof hmnet, ?_, ?_, hcof hmpath, ?_, hcof hmq, ?_⟩
  · rcases hnet with ⟨h1, -⟩ | ⟨-, h1, -⟩
    · rw [h1]
      rfl
    · exact h1
  · exact hque.1
  · exact fun hc => hfrag.1 (hque.2.1 _ hc)
  · exact fun hc => hfrag.1 (hque.2.2.1 _ hc)
  · intro hne
    dsimp only at hne
    rcases hnet with ⟨h1, -⟩ | ⟨-, -, htail⟩
    · exact absurd h1 hne
    · cases hpath : p4.1 with
      | nil => exact Or.inl rfl
      | cons c cs =>
        right
        have hcin : c ∈ p4.1 := by
          rw [hpath]
          exact List.mem_cons_self _ _
        have hh4 : p4.1.headD ' ' = c := by
          rw [hpath]
          rfl
        have hh3 : p3.1.headD ' ' = c := by
          rcases hque.2.2.2 with h | h
          · rw [h] at hpath
            cases hpath
          · rw [← h, hh4]
        have hp31ne : p3.1 ≠ [] := by
          intro hh
          have := hque.2.1 c hcin
          rw [hh] at this
          cases this
        have hh2 : p2.2.headD ' ' = c := by
          rcases hfrag.2.2.2 with h | h
          · exact absurd h hp31ne
          · rw [← h, hh3]
        have hp22ne : p2.2 ≠ [] := by
          intro hh
          have := hfrag.2.1 c (hque.2.1 c hcin)
          rw [hh] at this
          cases this
        rcases htail with h | h
        · exact absurd h hp22ne
        · rw [hh2] at h
          revert h
          unfold urllib.notDelim
          intro h
          simp only [Bool.not_eq_false', Bool.or_eq_true, decide_eq_true_eq] at h
          rcases h with (h | h) | h
          · rw [List.headD_cons]
            exact h
          · exfalso
            rw [h] at hcin
            exact hque.1 hcin
          · exfalso
            rw [h] at hcin
            exact hfrag.1 (hque.2.1 _ hcin)

theorem urlparse_inv (u d : Str) :
    (urllib.urlparse u d).netloc.all urllib.notDelim = true
    ∧ (urllib.urlparse u d).netloc.all (fun c => !urllib.isUnsafe c) = true
    ∧ '?' ∉ (urllib.urlparse u d).path
    ∧ '#' ∉ (urllib.urlparse u d).path
    ∧ (urllib.urlparse u d).path.all (fun c => !urllib.isUnsafe c) = true
    ∧ '#' ∉ (urllib.urlparse u d).query
    ∧ (urllib.urlparse u d).query.all (fun c => !urllib.isUnsafe c) = true
    ∧ ((urllib.urlparse u d).netloc ≠ [] →
        (urllib.urlparse u d).path = [] ∨ (urllib.urlparse u d).path.headD ' ' = '/') := by
  obtain ⟨i1, i2, i3, i4, i5, i6, i7, i8⟩ := urlsplit_inv u d
  unfold urllib.urlparse
  by_cases hpp : (urllib.urlsplit u d).scheme ∈ urllib.uses_params
      ∧ ';' ∈ (urllib.urlsplit u d).path
  · rw [if_pos hpp]
    dsimp only
    refine ⟨i1, i2, ?_, ?_, ?_, i6, i7, ?_⟩
    · exact fun hc => i3 (splitparams_mem _ hc)
    · exact fun hc => i4 (splitparams_mem _ hc)
    · exact List.all_eq_true.mpr fun c hc => List.all_eq_true.mp i5 _ (splitparams_mem _ hc)
    · intro hne
      rcases @splitparams_head (urllib.urlsplit u d).path with h | h
      · exact Or.inl h
      · rcases i8 hne with h2 | h2
        · exfalso
          rw [h2] at hpp
          exact (List.not_mem_nil ';') hpp.2
        · right
          rw [h, h2]
  · rw [if_neg hpp]
    dsimp only
    exact ⟨i1, i2, i3, i4, i5, i6, i7, i8⟩

theorem normalize_s_char {href base r : Str}
    (h : scrape_links.normalize_url href base true = some r) :
    (urllib.urlparse (urllib.urljoin base href) []).scheme ∈ [str "http", str "https"]
    ∧ r = urllib.urlunparse ⟨(urllib.urlparse (urllib.urljoin base href) []).scheme,
        (urllib.urlparse (urllib.urljoin base href) []).netloc,
        (if (urllib.urlparse (urllib.urljoin base href) []).path = str "/" then str "/"
         else rstripSlash (urllib.urlparse (urllib.urljoin base href) []).path), [],
        (urllib.urlparse (urllib.urljoin base href) []).query, []⟩ := by
  unfold scrape_links.normalize_url at h
  by_cases h1 : href = []
      ∨ startswithAny href [str "mailto:", str "tel:", str "javascript:", str "data:"] = true
  · rw [if_pos h1] at h
    cases h
  · rw [if_neg h1] at h
    by_cases h2 : List.headD href ' ' = '#'
    · rw [if_pos h2] at h
      cases h
    · rw [if_neg h2] at h
      dsimp only at h
      by_cases h3 : (urllib.urlparse (urllib.urljoin base href) []).scheme
          ∉ [str "http", str "https"]
      · rw [if_pos h3] at h
        cases h
      · rw [if_neg h3] at h
        rw [Option.some.injEq] at h
        rw [not_not] at h3
        exact ⟨h3, h.symm⟩

theorem normalize_x_char {href base target r : Str}
    (h : extract_links.normalize_url href base target = some r) :
    (urllib.urlparse (urllib.urljoin base href) []).netloc
        = (urllib.urlparse target []).netloc
    ∧ r = urllib.urlunparse ⟨str "https",
        (urllib.urlparse (urllib.urljoin base href) []).netloc,
        (if (urllib.urlparse (urllib.urljoin base href) []).path = str "/" then str "/"
         else rstripSlash (urllib.urlparse (urllib.urljoin base href) []).path), [],
        (urllib.urlparse (urllib.urljoin base href) []).query, []⟩ := by
  unfold extract_links.normalize_url at h
  by_cases h1 : href = []
      ∨ startswithAny href [str "mailto:", str "tel:", str "javascript:"] = true
  · rw [if_pos h1] at h
    cases h
  · rw [if_neg h1] at h
    by_cases h2 : List.headD href ' ' = '#'
    · rw [if_pos h2] at h
      cases h
    · rw [if_neg h2] at h
      dsimp only at h
      by_cases h3 : (urllib.urlparse (urllib.urljoin base href) []).netloc
          ≠ (urllib.urlparse target []).netloc
      · rw [if_pos h3] at h
        cases h
      · rw [if_neg h3] at h
        rw [Option.some.injEq] at h
        rw [not_not] at h3
        exact ⟨h3, h.symm⟩

theorem pathP_facts {path : Str} (i3 : '?' ∉ path) (i4 : '#' ∉ path)
    (i5 : path.all (fun c => !urllib.isUnsafe c) = true)
    (ishape : path = [] ∨ path.headD ' ' = '/')
    (hsemi : ';' ∉ path) :
    ((if path = str "/" then str "/" else rstripSlash path) = []
      ∨ (if path = str "/" then str "/" else rstripSlash path).headD ' ' = '/')
    ∧ '?' ∉ (if path = str "/" then str "/" else rstripSlash path)
    ∧ '#' ∉ (if path = str "/" then str "/" else rstripSlash path)
    ∧ ';' ∉ (if path = str "/" then str "/" else rstripSlash path)
    ∧ (if path = str "/" then str "/" else rstripSlash path).all
        (fun c => !urllib.isUnsafe c) = true := by
  by_cases hr : path = str "/"
  · simp only [if_pos hr]
    exact ⟨Or.inr rfl, by decide, by decide, by decide, by decide⟩
  · simp only [if_neg hr]
    refine ⟨?_, fun hc => i3 (mem_rstripSlash hc), fun hc => i4 (mem_rstripSlash hc),
      fun hc => hsemi (mem_rstripSlash hc), ?_⟩
    · by_cases hrs : rstripSlash path = []
      · exact Or.inl hrs
      · right
        rw [rstripSlash_head hrs]
        rcases ishape with h | h
        · rw [h] at hrs
          exact absurd rfl hrs
        · exact h
    · exact List.all_eq_true.mpr fun c hc => List.all_eq_true.mp i5 _ (mem_rstripSlash hc)

theorem http_valid {s : Str} (hs : s ∈ [str "http", str "https"]) : validLowerScheme s := by
  rcases List.mem_cons.mp hs with rfl | hs2
  · decide
  · rcases List.mem_cons.mp hs2 with rfl | hs3
    · decide
    · cases hs3

theorem http_uses_netloc {s : Str} (hs : s ∈ [str "http", str "https"]) :
    s ∈ urllib.uses_netloc := by
  rcases List.mem_cons.mp hs with rfl | hs2
  · decide
  · rcases List.mem_cons.mp hs2 with rfl | hs3
    · decide
    · cases hs3

theorem reparse_gen {s n p q : Str} (d : Str)
    (hs : s ∈ [str "http", str "https"])
    (hnet : n ≠ []) (i1 : n.all urllib.notDelim = true)
    (i2 : n.all (fun c => !urllib.isUnsafe c) = true)
    (hp : p = [] ∨ p.headD ' ' = '/')
    (hpq : '?' ∉ p) (hpf : '#' ∉ p) (hps : ';' ∉ p)
    (hpc : p.all (fun c => !urllib.isUnsafe c) = true)
    (hqf : '#' ∉ q) (hqc : q.all (fun c => !urllib.isUnsafe c) = true) :
    urllib.urlparse (urllib.urlunparse ⟨s, n, p, [], q, []⟩) d = ⟨s, n, p, [], q, []⟩ :=
  parse_unparse d (Or.inr (http_valid hs)) i1 i2 hp hpq hpf hps hpc hqf hqc
    (fun h => absurd h hnet)

theorem urljoin_fixed {s n p q : Str} (base : Str)
    (hs : s ∈ [str "http", str "https"]) (hnet : n ≠ [])
    (i1 : n.all urllib.notDelim = true)
    (i2 : n.all (fun c => !urllib.isUnsafe c) = true)
    (hp : p = [] ∨ p.headD ' ' = '/')
    (hpq : '?' ∉ p) (hpf : '#' ∉ p) (hps : ';' ∉ p)
    (hpc : p.all (fun c => !urllib.isUnsafe c) = true)
    (hqf : '#' ∉ q) (hqc : q.all (fun c => !urllib.isUnsafe c) = true) :
    urllib.urljoin base (urllib.urlunparse ⟨s, n, p, [], q, []⟩)
      = urllib.urlunparse ⟨s, n, p, [], q, []⟩ := by
  have hvs : validLowerScheme s := http_valid hs
  have hrne : urllib.urlunparse ⟨s, n, p, [], q, []⟩ ≠ [] := by
    obtain ⟨t, ht⟩ := unparse_scheme_pre (p := ⟨s, n, p, [], q, []⟩) hvs.1
    intro hnil
    rw [hnil] at ht
    have := List.append_eq_nil.mp ht
    have := List.append_eq_nil.mp this.1
    exact hvs.1 this.1
  unfold urllib.urljoin
  by_cases hb : base = []
  · rw [if_pos hb]
  · rw [if_neg hb, if_neg hrne]
    have hu := reparse_gen (urllib.urlparse base []).scheme hs hnet i1 i2 hp hpq hpf hps
      hpc hqf hqc
    dsimp only
    rw [hu]
    by_cases hsch : (urllib.ParseResult.mk s n p [] q []).scheme
          ≠ (urllib.urlparse base []).scheme
        ∨ (urllib.ParseResult.mk s n p [] q []).scheme ∉ urllib.uses_relative
    · rw [if_pos hsch]
    · rw [if_neg hsch]
      rw [if_pos (show (urllib.ParseResult.mk s n p [] q []).scheme ∈ urllib.uses_netloc
          ∧ (urllib.ParseResult.mk s n p [] q []).netloc ≠ []
          from ⟨http_uses_netloc hs, hnet⟩)]

theorem head_h_shape {s r : Str} (hs : s ∈ [str "http", str "https"])
    (hpre : (s ++ [':']) <+: r) : ∃ t, r = 'h' :: t := by
  obtain ⟨u, hu⟩ := hpre
  rcases List.mem_cons.mp hs with rfl | hs2
  · exact ⟨'t' :: 't' :: 'p' :: ':' :: u, hu.symm⟩
  · rcases List.mem_cons.mp hs2 with rfl | hs3
    · exact ⟨'t' :: 't' :: 'p' :: 's' :: ':' :: u, hu.symm⟩
    · cases hs3

theorem guard_scrape (t : Str) :
    ¬(('h' :: t) = [] ∨ startswithAny ('h' :: t)
        [str "mailto:", str "tel:", str "javascript:", str "data:"] = true) := by
  intro h
  rcases h with h | h
  · cases h
  · simp [startswithAny, str, List.isPrefixOf] at h

theorem guard_extract (t : Str) :
    ¬(('h' :: t) = [] ∨ startswithAny ('h' :: t)
        [str "mailto:", str "tel:", str "javascript:"] = true) := by
  intro h
  rcases h with h | h
  · cases h
  · simp [startswithAny, str, List.isPrefixOf] at h

theorem guard_hash (t : Str) : ¬List.headD ('h' :: t) ' ' = '#' := by simp

theorem pathP_fix (path : Str) :
    (if (if path = str "/" then str "/" else rstripSlash path) = str "/" then str "/"
     else rstripSlash (if path = str "/" then str "/" else rstripSlash path))
    = (if path = str "/" then str "/" else rstripSlash path) := by
  by_cases hr : path = str "/"
  · simp [if_pos hr]
  · simp only [if_neg hr, if_neg (rstripSlash_ne_root path), rstripSlash_idem]

theorem second_pass_s {s n p q : Str} (base : Str)
    (hs : s ∈ [str "http", str "https"]) (hn : n ≠ [])
    (i1 : n.all urllib.notDelim = true)
    (i2 : n.all (fun c => !urllib.isUnsafe c) = true)
    (hp : p = [] ∨ p.headD ' ' = '/')
    (hpq : '?' ∉ p) (hpf : '#' ∉ p) (hps : ';' ∉ p)
    (hpc : p.all (fun c => !urllib.isUnsafe c) = true)
    (hqf : '#' ∉ q) (hqc : q.all (fun c => !urllib.isUnsafe c) = true)
    (hfix : (if p = str "/" then str "/" else rstripSlash p) = p) :
    scrape_links.normalize_url (urllib.urlunparse ⟨s, n, p, [], q, []⟩) base true
      = some (urllib.urlunparse ⟨s, n, p, [], q, []⟩) := by
  obtain ⟨t, ht⟩ := head_h_shape hs
    (unparse_scheme_pre (p := ⟨s, n, p, [], q, []⟩) (http_valid hs).1)
  unfold scrape_links.normalize_url
  rw [ht, if_neg (guard_scrape t), if_neg (guard_hash t)]
  dsimp only
  rw [← ht]
  rw [urljoin_fixed base hs hn i1 i2 hp hpq hpf hps hpc hqf hqc]
  rw [reparse_gen [] hs hn i1 i2 hp hpq hpf hps hpc hqf hqc]
  dsimp only
  rw [if_neg (not_not_intro hs), hfix]
  rfl

theorem second_pass_x {n p q : Str} (base target : Str)
    (hnt : n = (urllib.urlparse target []).netloc) (hn : n ≠ [])
    (i1 : n.all urllib.notDelim = true)
    (i2 : n.all (fun c => !urllib.isUnsafe c) = true)
    (hp : p = [] ∨ p.headD ' ' = '/')
    (hpq : '?' ∉ p) (hpf : '#' ∉ p) (hps : ';' ∉ p)
    (hpc : p.all (fun c => !urllib.isUnsafe c) = true)
    (hqf : '#' ∉ q) (hqc : q.all (fun c => !urllib.isUnsafe c) = true)
    (hfix : (if p = str "/" then str "/" else rstripSlash p) = p) :
    extract_links.normalize_url (urllib.urlunparse ⟨str "https", n, p, [], q, []⟩) base target
      = some (urllib.urlunparse ⟨str "https", n, p, [], q, []⟩) := by
  have hs : str "https" ∈ [str "http", str "https"] := by decide
  obtain ⟨t, ht⟩ := head_h_shape hs
    (unparse_scheme_pre (p := ⟨str "https", n, p, [], q, []⟩) (http_valid hs).1)
  unfold extract_links.normalize_url
  rw [ht, if_neg (guard_extract t), if_neg (guard_hash t)]
  dsimp only
  rw [← ht]
  rw [urljoin_fixed base hs hn i1 i2 hp hpq hpf hps hpc hqf hqc]
  rw [reparse_gen [] hs hn i1 i2 hp hpq hpf hps hpc hqf hqc]
  dsimp only
  rw [if_neg (not_not_intro hnt), hfix]

/-- C7 counterexample: normalization is not a fixed-point projection in
either script.  The href "/a;b/" against base "https://h" normalizes to
"https://h/a;b" on the first pass; re-normalizing that output yields
"https://h/a", because after the trailing slash was stripped the ';' now
sits in the last path segment and urlparse splits it off as params, which
the rebuild drops. -/
theorem C7_counterexample :
    scrape_links.normalize_url (str "/a;b/") (str "https://h") true
        = some (str "https://h/a;b")
    ∧ scrape_links.normalize_url (str "https://h/a;b") (str "https://h") true
        = some (str "https://h/a")
    ∧ extract_links.normalize_url (str "/a;b/") (str "https://h") (str "https://h")
        = some (str "https://h/a;b")
    ∧ extract_links.normalize_url (str "https://h/a;b") (str "https://h") (str "https://h")
        = some (str "https://h/a")
    ∧ str "https://h/a" ≠ str "https://h/a;b" := by decide

/-- C7 amended: normalization is idempotent on every href whose resolution
against the base URL parses with a nonempty netloc and a params-free path
(no ';' in the path): if `normalize_url` returns `some r` for such an
href, then renormalizing `r` returns `some r` again, in both scripts.
Without the ';' proviso the claim is false (see the counterexample). -/
theorem C7_normalize_idempotent (href base target r : Str)
    (hn : (urllib.urlparse (urllib.urljoin base href) []).netloc ≠ [])
    (hsemi : ';' ∉ (urllib.urlparse (urllib.urljoin base href) []).path) :
    (scrape_links.normalize_url href base true = some r →
      scrape_links.normalize_url r base true = some r)
    ∧ (extract_links.normalize_url href base target = some r →
      extract_links.normalize_url r base target = some r) := by
  obtain ⟨i1, i2, i3, i4, i5, i6, i7, i8⟩ := urlparse_inv (urllib.urljoin base href) []
  obtain ⟨hp, hpq, hpf, hps, hpc⟩ := pathP_facts i3 i4 i5 (i8 hn) hsemi
  constructor
  · intro h
    obtain ⟨hs, hr⟩ := normalize_s_char h
    rw [hr]
    exact second_pass_s base hs hn i1 i2 hp hpq hpf hps hpc i6 i7 (pathP_fix _)
  · intro h
    obtain ⟨hnt, hr⟩ := normalize_x_char h
    rw [hr]
    exact second_pass_x base target hnt hn i1 i2 hp hpq hpf hps hpc i6 i7 (pathP_fix _)

/-- Witness for the amended C7 theorem at href "/a", base "https://h",
target "https://h", r "https://h/a". -/
theorem C7_normalize_idempotent_witness :
    ((urllib.urlparse (urllib.urljoin (str "https://h") (str "/a")) []).netloc ≠ []
      ∧ ';' ∉ (urllib.urlparse (urllib.urljoin (str "https://h") (str "/a")) []).path
      ∧ scrape_links.normalize_url (str "/a") (str "https://h") true
          = some (str "https://h/a")
      ∧ extract_links.normalize_url (str "/a") (str "https://h") (str "https://h")
          = some (str "https://h/a"))
    ∧ scrape_links.normalize_url (str "https://h/a") (str "https://h") true
        = some (str "https://h/a")
    ∧ extract_links.normalize_url (str "https://h/a") (str "https://h") (str "https://h")
        = some (str "https://h/a") := by
  refine ⟨by decide, ?_, ?_⟩
  · exact (C7_normalize_idempotent (str "/a") (str "https://h") (str "https://h")
      (str "https://h/a") (by decide) (by decide)).1 (by decide)
  · exact (C7_normalize_idempotent (str "/a") (str "https://h") (str "https://h")
      (str "https://h/a") (by decide) (by decide)).2 (by decide)

theorem sanitizeScheme_of_clean {s : Str}
    (h : ∀ c ∈ s, urllib.isC0OrSpace c = false ∧ urllib.isUnsafe c = false) :
    urllib.sanitizeScheme s = s := by
  have hd : ∀ (l : Str), (∀ c ∈ l, urllib.isC0OrSpace c = false) →
      l.dropWhile urllib.isC0OrSpace = l := by
    intro l hl
    cases l with
    | nil => rfl
    | cons c cs => simp [List.dropWhile, hl c (List.mem_cons_self c cs)]
  unfold urllib.sanitizeScheme
  rw [hd s (fun c hc => (h c hc).1),
      hd s.reverse (fun c hc => (h c (List.mem_reverse.mp hc)).1),
      List.reverse_reverse]
  exact List.filter_eq_self.mpr (fun c hc => by simp [(h c hc).2])

theorem parse_scheme_shape (base : Str) :
    (urllib.urlparse base []).scheme = []
    ∨ validLowerScheme (urllib.urlparse base []).scheme := by
  have hsch : (urllib.urlparse base []).scheme = (urllib.urlsplit base []).scheme := by
    unfold urllib.urlparse
    dsimp only
    split <;> rfl
  have h2 : (urllib.urlsplit base []).scheme
      = (urllib.splitScheme [] (urllib.sanitize base)).1 := rfl
  rw [hsch, h2]
  rcases splitScheme_inv [] (urllib.sanitize base) with ⟨h1, -⟩ | ⟨hv, -⟩
  · exact Or.inl h1
  · exact Or.inr hv

theorem valid_clean {s : Str} (hv : validLowerScheme s) :
    ∀ c ∈ s, urllib.isC0OrSpace c = false ∧ urllib.isUnsafe c = false := by
  intro c hc
  obtain ⟨hu, hcs⟩ := schemeChar_clean ((List.all_eq_true.mp hv.2.2.1) c hc)
  exact ⟨hcs, hu⟩

theorem sani_scheme_b (base : Str) :
    urllib.sanitizeScheme (urllib.urlparse base []).scheme
      = (urllib.urlparse base []).scheme := by
  rcases parse_scheme_shape base with h | h
  · rw [h]
    rfl
  · exact sanitizeScheme_of_clean (valid_clean h)

theorem parse_rootpath {L : Str} (d : Str)
    (hsan : urllib.sanitize L = L)
    (hcolon : urllib.breakOn ':' L = none)
    (h2 : L.take 2 ≠ ['/', '/'])
    (hhash : urllib.breakOn '#' L = none)
    (hq : urllib.breakOn '?' L = none)
    (hsemi : ';' ∉ L) :
    urllib.urlparse L d = ⟨urllib.sanitizeScheme d, [], L, [], [], []⟩ := by
  have hs : urllib.urlsplit L d = ⟨urllib.sanitizeScheme d, [], L, [], []⟩ := by
    unfold urllib.urlsplit urllib.splitScheme urllib.splitNetloc urllib.splitFragment
      urllib.splitQuery
    simp only [hsan, hcolon, hhash, hq, if_neg h2]
  unfold urllib.urlparse
  rw [hs]
  dsimp only
  rw [if_neg (fun hh => hsemi hh.2)]

theorem urljoin_norel {L : Str} (base : Str) (hbne : base ≠ []) (hLne : L ≠ [])
    (hparse : urllib.urlparse L (urllib.urlparse base []).scheme
        = ⟨(urllib.urlparse base []).scheme, [], L, [], [], []⟩)
    (hrel : (urllib.urlparse base []).scheme ∉ urllib.uses_relative) :
    urllib.urljoin base L = L := by
  unfold urllib.urljoin
  rw [if_neg hbne, if_neg hLne]
  dsimp only
  rw [hparse]
  rw [if_pos (Or.inr hrel)]

theorem urljoin_abs (base L rp : Str) (hbne : base ≠ []) (hLne : L ≠ [])
    (hparse : urllib.urlparse L (urllib.urlparse base []).scheme
        = ⟨(urllib.urlparse base []).scheme, [], L, [], [], []⟩)
    (hrel : (urllib.urlparse base []).scheme ∈ urllib.uses_relative)
    (hhead : L.headD ' ' = '/')
    (hrp : List.intercalate ['/']
        (if (urllib.splitSlash L).getLastD [] = ['.']
            ∨ (urllib.splitSlash L).getLastD [] = ['.', '.']
         then urllib.resolveSegs (urllib.splitSlash L) ++ [[]]
         else urllib.resolveSegs (urllib.splitSlash L)) = rp)
    (hrpne : rp ≠ []) :
    urllib.urljoin base L = urllib.urlunparse
      ⟨(urllib.urlparse base []).scheme,
       (if (urllib.urlparse base []).scheme ∈ urllib.uses_netloc
        then (urllib.urlparse base []).netloc else []), rp, [], [], []⟩ := by
  unfold urllib.urljoin
  rw [if_neg hbne, if_neg hLne]
  dsimp only
  rw [hparse]
  rw [if_neg (show ¬((urllib.urlparse base []).scheme ≠ (urllib.urlparse base []).scheme
      ∨ (urllib.urlparse base []).scheme ∉ urllib.uses_relative) from
    fun hh => hh.elim (fun h => h rfl) (fun h => h hrel))]
  rw [if_neg (show ¬((urllib.urlparse base []).scheme ∈ urllib.uses_netloc
      ∧ ([] : Str) ≠ []) from fun hh => hh.2 rfl)]
  dsimp only
  rw [if_neg (show ¬(L = [] ∧ ([] : Str) = []) from fun hh => hLne hh.1)]
  rw [if_pos hhead]
  rw [hrp, if_neg hrpne]

theorem join_docs (base : Str) :
    (urllib.urlparse (urllib.urljoin base (str "/docs/intro/")) []).scheme
      = (urllib.urlparse (urllib.urljoin base (str "/docs/intro")) []).scheme
    ∧ (urllib.urlparse (urllib.urljoin base (str "/docs/intro/")) []).netloc
      = (urllib.urlparse (urllib.urljoin base (str "/docs/intro")) []).netloc
    ∧ (urllib.urlparse (urllib.urljoin base (str "/docs/intro/")) []).query
      = (urllib.urlparse (urllib.urljoin base (str "/docs/intro")) []).query
    ∧ (if (urllib.urlparse (urllib.urljoin base (str "/docs/intro/")) []).path = str "/"
       then str "/"
       else rstripSlash (urllib.urlparse (urllib.urljoin base (str "/docs/intro/")) []).path)
      = (if (urllib.urlparse (urllib.urljoin base (str "/docs/intro")) []).path = str "/"
         then str "/"
         else rstripSlash (urllib.urlparse (urllib.urljoin base (str "/docs/intro")) []).path) := by
  by_cases hbne : base = []
  · subst hbne
    decide
  · have hp₁ : urllib.urlparse (str "/docs/intro/") (urllib.urlparse base []).scheme
        = ⟨(urllib.urlparse base []).scheme, [], str "/docs/intro/", [], [], []⟩ := by
      rw [parse_rootpath _ (by decide) (by decide) (by decide) (by decide) (by decide)
        (by decide), sani_scheme_b]
    have hp₀ : urllib.urlparse (str "/docs/intro") (urllib.urlparse base []).scheme
        = ⟨(urllib.urlparse base []).scheme, [], str "/docs/intro", [], [], []⟩ := by
      rw [parse_rootpath _ (by decide) (by decide) (by decide) (by decide) (by decide)
        (by decide), sani_scheme_b]
    by_cases hrel : (urllib.urlparse base []).scheme ∈ urllib.uses_relative
    · rw [urljoin_abs base (str "/docs/intro/") (str "/docs/intro/") hbne (by decide) hp₁
          hrel (by decide) (by decide) (by decide),
        urljoin_abs base (str "/docs/intro") (str "/docs/intro") hbne (by decide) hp₀
          hrel (by decide) (by decide) (by decide)]
      have hsd : ((urllib.urlparse base []).scheme = []
            ∧ urllib.sanitizeScheme ([] : Str) = [])
          ∨ validLowerScheme (urllib.urlparse base []).scheme := by
        rcases parse_scheme_shape base with h | h
        · exact Or.inl ⟨h, rfl⟩
        · exact Or.inr h
      have hn1 : (if (urllib.urlparse base []).scheme ∈ urllib.uses_netloc
          then (urllib.urlparse base []).netloc else []).all urllib.notDelim = true := by
        by_cases hu : (urllib.urlparse base []).scheme ∈ urllib.uses_netloc
        · rw [if_pos hu]
          exact (urlparse_inv base []).1
        · rw [if_neg hu]
          rfl
      have hn2 : ((if (urllib.urlparse base []).scheme ∈ urllib.uses_netloc
          then (urllib.urlparse base []).netloc else []).all
            (fun c => !urllib.isUnsafe c)) = true := by
        by_cases hu : (urllib.urlparse base []).scheme ∈ urllib.uses_netloc
        · rw [if_pos hu]
          exact (urlparse_inv base []).2.1
        · rw [if_neg hu]
          rfl
      rw [parse_unparse (p := str "/docs/intro/") (q := []) [] hsd hn1 hn2 (by decide)
          (by decide) (by decide) (by decide) (by decide) (by decide) (by decide)
          (fun _ => by decide),
        parse_unparse (p := str "/docs/intro") (q := []) [] hsd hn1 hn2 (by decide)
          (by decide) (by decide) (by decide) (by decide) (by decide) (by decide)
          (fun _ => by decide)]
      refine ⟨rfl, rfl, rfl, ?_⟩
      show (if str "/docs/intro/" = str "/" then str "/" else rstripSlash (str "/docs/intro/"))
        = (if str "/docs/intro" = str "/" then str "/" else rstripSlash (str "/docs/intro"))
      decide
    · rw [urljoin_norel base hbne (by decide) hp₁ hrel,
        urljoin_norel base hbne (by decide) hp₀ hrel]
      decide

theorem scrape_eval {href : Str} (base : Str)
    (g1 : ¬(href = [] ∨ startswithAny href
        [str "mailto:", str "tel:", str "javascript:", str "data:"] = true))
    (g2 : ¬href.headD ' ' = '#') :
    scrape_links.normalize_url href base true
      = if (urllib.urlparse (urllib.urljoin base href) []).scheme ∉ [str "http", str "https"]
        then none
        else some (urllib.urlunparse
          ⟨(urllib.urlparse (urllib.urljoin base href) []).scheme,
           (urllib.urlparse (urllib.urljoin base href) []).netloc,
           (if (urllib.urlparse (urllib.urljoin base href) []).path = str "/" then str "/"
            else rstripSlash (urllib.urlparse (urllib.urljoin base href) []).path), [],
           (urllib.urlparse (urllib.urljoin base href) []).query, []⟩) := by
  unfold scrape_links.normalize_url
  rw [if_neg g1, if_neg g2]
  dsimp only
  by_cases h3 : (urllib.urlparse (urllib.urljoin base href) []).scheme
      ∉ [str "http", str "https"]
  · rw [if_pos h3, if_pos h3]
  · rw [if_neg h3, if_neg h3]
    rfl

theorem extract_eval {href : Str} (base target : Str)
    (g1 : ¬(href = [] ∨ startswithAny href
        [str "mailto:", str "tel:", str "javascript:"] = true))
    (g2 : ¬href.headD ' ' = '#') :
    extract_links.normalize_url href base target
      = if (urllib.urlparse (urllib.urljoin base href) []).netloc
            ≠ (urllib.urlparse target []).netloc
        then none
        else some (urllib.urlunparse
          ⟨str "https",
           (urllib.urlparse (urllib.urljoin base href) []).netloc,
           (if (urllib.urlparse (urllib.urljoin base href) []).path = str "/" then str "/"
            else rstripSlash (urllib.urlparse (urllib.urljoin base href) []).path), [],
           (urllib.urlparse (urllib.urljoin base href) []).query, []⟩) := by
  unfold extract_links.normalize_url
  rw [if_neg g1, if_neg g2]

/-- C8: trailing-slash policy.  For every base URL (and target origin),
both scripts map the hrefs "/docs/intro/" and "/docs/intro" to the same
normalized value; every accepted href is rebuilt from the resolved parse
with the path component replaced by "/" when the resolved path is exactly
"/" and by the path with all trailing slashes stripped otherwise; and
`rstrip('/')` output never retains a trailing slash. -/
theorem C8_trailing_slash :
    (∀ base target,
        scrape_links.normalize_url (str "/docs/intro/") base true
          = scrape_links.normalize_url (str "/docs/intro") base true
        ∧ extract_links.normalize_url (str "/docs/intro/") base target
          = extract_links.normalize_url (str "/docs/intro") base target)
    ∧ (∀ href base r, scrape_links.normalize_url href base true = some r →
        r = urllib.urlunparse
          ⟨(urllib.urlparse (urllib.urljoin base href) []).scheme,
           (urllib.urlparse (urllib.urljoin base href) []).netloc,
           (if (urllib.urlparse (urllib.urljoin base href) []).path = str "/" then str "/"
            else rstripSlash (urllib.urlparse (urllib.urljoin base href) []).path), [],
           (urllib.urlparse (urllib.urljoin base href) []).query, []⟩)
    ∧ (∀ href base target r, extract_links.normalize_url href base target = some r →
        r = urllib.urlunparse
          ⟨str "https",
           (urllib.urlparse (urllib.urljoin base href) []).netloc,
           (if (urllib.urlparse (urllib.urljoin base href) []).path = str "/" then str "/"
            else rstripSlash (urllib.urlparse (urllib.urljoin base href) []).path), [],
           (urllib.urlparse (urllib.urljoin base href) []).query, []⟩)
    ∧ (∀ p, rstripSlash p = [] ∨ (rstripSlash p).getLast? ≠ some '/') := by
  refine ⟨?_, fun href base r h => (normalize_s_char h).2,
    fun href base target r h => (normalize_x_char h).2, rstripSlash_getLast⟩
  intro base target
  obtain ⟨e_s, e_n, e_q, e_p⟩ := join_docs base
  constructor
  · rw [scrape_eval base (by decide) (by decide), scrape_eval base (by decide) (by decide)]
    rw [e_s, e_n, e_q, e_p]
  · rw [extract_eval base target (by decide) (by decide),
      extract_eval base target (by decide) (by decide)]
    rw [e_n, e_q, e_p]

/-- Witness for C8: concrete instances of each normalization conjunct. -/
theorem C8_trailing_slash_witness :
    (scrape_links.normalize_url (str "/docs/intro/") (str "https://h") true
      = scrape_links.normalize_url (str "/docs/intro") (str "https://h") true)
    ∧ str "https://h/" = urllib.urlunparse
        ⟨(urllib.urlparse (urllib.urljoin (str "https://h") (str "/")) []).scheme,
         (urllib.urlparse (urllib.urljoin (str "https://h") (str "/")) []).netloc,
         (if (urllib.urlparse (urllib.urljoin (str "https://h") (str "/")) []).path = str "/"
          then str "/"
          else rstripSlash
            (urllib.urlparse (urllib.urljoin (str "https://h") (str "/")) []).path),
         [], (urllib.urlparse (urllib.urljoin (str "https://h") (str "/")) []).query, []⟩
    ∧ str "https://h/docs" = urllib.urlunparse
        ⟨str "https",
         (urllib.urlparse (urllib.urljoin (str "https://h") (str "/docs/")) []).netloc,
         (if (urllib.urlparse (urllib.urljoin (str "https://h") (str "/docs/")) []).path
              = str "/"
          then str "/"
          else rstripSlash
            (urllib.urlparse (urllib.urljoin (str "https://h") (str "/docs/")) []).path),
         [], (urllib.urlparse (urllib.urljoin (str "https://h") (str "/docs/")) []).query,
         []⟩ :=
  ⟨(C8_trailing_slash.1 (str "https://h") (str "https://h")).1,
    C8_trailing_slash.2.1 (str "/") (str "https://h") (str "https://h/") (by decide),
    C8_trailing_slash.2.2.1 (str "/docs/") (str "https://h") (str "https://h")
      (str "https://h/docs") (by decide)⟩
